import Mathlib

/-!
Verification of the sqlmesh-openlineage run tracker and lineage walker.

This file gives a shallow embedding of the lineage/console/emitter logic of
the repository (src/sqlmesh_openlineage/console.py, emitter.py, datasets.py,
facets.py) and proves or refutes the specified properties.

Modelling conventions:
- Python dicts that preserve insertion order are modelled as association
  lists (`List (String × α)`) with `dget` (lookup of the first matching
  key), `dinsert` (update in place when the key is present, append
  otherwise) and `dpop` (remove the entry with the key).
- The Event Sink (the OpenLineage client) is modelled by a predicate
  `EmitOk : Event → Bool` saying which emissions succeed; a failing
  emission corresponds to `client.emit` raising, which aborts the
  surrounding callback at that point.
- Timestamps are not modelled (no claim mentions them).
- The sqlglot lineage node (an external collaborator supplied by the SQL
  parser) is modelled as a finite rose tree `LNode`; its `walk` method is
  the standard preorder traversal, which is what `sqlglot.lineage.Node.walk`
  performs.
-/

namespace SOL

/-! ## Python dict model -/

/-- Lookup of the first entry with the given key, as Python `d.get(k)`. -/
def dget {α : Type} : List (String × α) → String → Option α
  | [], _ => none
  | (k', v) :: rest, k => if k' = k then some v else dget rest k

/-- Python `d[k] = v`: update the entry in place when the key is present,
append a fresh entry otherwise (dicts preserve insertion order). -/
def dinsert {α : Type} : List (String × α) → String → α → List (String × α)
  | [], k, v => [(k, v)]
  | (k', v') :: rest, k, v =>
    if k' = k then (k', v) :: rest else (k', v') :: dinsert rest k v

/-- Python `d.pop(k, None)` restricted to its effect on the dict:
remove the entry with the key when present. -/
def dpop {α : Type} : List (String × α) → String → List (String × α)
  | [], _ => []
  | (k', v') :: rest, k =>
    if k' = k then rest else (k', v') :: dpop rest k

/-- Python `".".join(parts)`: concatenate with a dot between consecutive
elements. -/
def dotJoin : List String → String
  | [] => ""
  | [p] => p
  | p :: rest => p ++ "." ++ dotJoin rest

/-- Modelled from the spec: the qualified name is the name parts joined
with a dot, omitting empty parts (spec section 3, Entity Descriptor). -/
def joinNonEmptyParts : List String → String
  | [] => ""
  | p :: rest =>
    if p = "" then joinNonEmptyParts rest
    else if joinNonEmptyParts rest = "" then p
    else p ++ "." ++ joinNonEmptyParts rest

/-! ## Lineage node model (external collaborator)

`sqlmesh.core.lineage.lineage` returns a `sqlglot.lineage.Node`.  The node
exposes `name` (the SQL text naming the referenced column), `expression`
(from which the code extracts the first `exp.Table`, modelled here as the
precomputed `tableRef`) and `downstream` (the list of child nodes).
`Node.walk` yields the node itself and then recursively walks each
downstream node, i.e. a preorder traversal. -/

/-- An `exp.Table` reference: catalog, db and name parts. -/
structure Table where
  catalog : String
  db : String
  name : String
  deriving DecidableEq

/-- A sqlglot lineage node (finite by the spec: walking is well defined). -/
inductive LNode : Type where
  | mk : String → Option Table → List LNode → LNode

/-- The SQL text naming the column referenced at this node. -/
def LNode.name : LNode → String
  | .mk n _ _ => n

/-- Models `node.expression.find(exp.Table)`: the first table reference in
the node expression, when any. -/
def LNode.tableRef : LNode → Option Table
  | .mk _ t _ => t

/-- The downstream (child) nodes. -/
def LNode.downstream : LNode → List LNode
  | .mk _ _ ds => ds

mutual

/-- Models `sqlglot.lineage.Node.walk`: preorder traversal. -/
def LNode.walk : LNode → List LNode
  | .mk n t ds => .mk n t ds :: walkAll ds

/-- Preorder traversal of a list of nodes, in order. -/
def walkAll : List LNode → List LNode
  | [] => []
  | d :: rest => d.walk ++ walkAll rest

end

/-- Models `sqlglot.exp.to_column(s).name`: the name part of the column
expression parsed from `s`, i.e. the last dot separated component. -/
def to_column_name (s : String) : String :=
  (splitOnDot s.data []).getLastD s
where
  /-- Split a character list on dots, accumulating the current component
  in reverse. -/
  splitOnDot : List Char → List Char → List String
    | [], acc => [String.mk acc.reverse]
    | c :: rest, acc =>
      if c = '.' then String.mk acc.reverse :: splitOnDot rest []
      else splitOnDot rest (c :: acc)

/-! ## SQLMesh snapshot model (entity provider boundary)

Only the attributes read by the repository code are modelled:
`qualified_view_name` (catalog, schema_name, table), `is_model`, `model`
(with its ordered `columns_to_types` dict and the per column lineage
facility applied to it), `parents` (the upstream names used by
`snapshot_to_input_datasets`) and `name`. -/

/-- `snapshot.qualified_view_name`. -/
structure QualifiedViewName where
  catalog : String
  schema_name : String
  table : String
  deriving DecidableEq

/-- `QueryExecutionStats` as read by facets.py: the two optional totals. -/
structure QueryExecutionStats where
  total_rows_processed : Option Int
  total_bytes_processed : Option Int
  deriving DecidableEq

/-- The model attached to a snapshot.  `columns_to_types` is the ordered
column to type dict (the values are already rendered to strings, matching
`str(dtype)`).  `lineage` models applying the external
`sqlmesh.core.lineage.lineage(col, model, trim_selects=False)` facility to
this model for one column name; `Except.error` means the call (or the
subsequent traversal of its result) raises. -/
structure SMModel where
  columns_to_types : List (String × String)
  lineage : String → Except Unit LNode

/-- A SQLMesh snapshot, restricted to the attributes the repository
reads. -/
structure Snapshot where
  name : String
  qualified_view_name : QualifiedViewName
  is_model : Bool
  model : Option SMModel
  parents : List String

/-! ## datasets.py -/

/-- `snapshot_to_table_name` (datasets.py lines 13 to 17): join the
non-empty parts of the qualified view name with a dot. -/
def snapshot_to_table_name (snapshot : Snapshot) : String :=
  let qvn := snapshot.qualified_view_name
  let parts := [qvn.catalog, qvn.schema_name, qvn.table]
  dotJoin (parts.filter (fun p => p ≠ ""))

/-- One entry of a `SchemaDatasetFacet`. -/
structure SchemaField where
  name : String
  type : String
  deriving DecidableEq

/-- `snapshot_to_schema_facet` (datasets.py lines 20 to 39). -/
def snapshot_to_schema_facet (snapshot : Snapshot) : Option (List SchemaField) :=
  if snapshot.is_model = false then none
  else
    match snapshot.model with
    | none => none
    | some model =>
      if model.columns_to_types = [] then none
      else some (model.columns_to_types.map (fun p => ⟨p.1, p.2⟩))

/-- A `column_lineage_dataset.InputField` (the `namespace_` field models
the `namespace` keyword argument). -/
structure InputField where
  namespace_ : String
  name : String
  field : String
  deriving DecidableEq

/-- A `column_lineage_dataset.Fields` value. -/
structure Fields where
  inputFields : List InputField
  transformationType : String
  transformationDescription : String
  deriving DecidableEq

/-- The table name extraction on a leaf (datasets.py lines 87 to 88):
join the non-empty parts of catalog, db and name with a dot. -/
def table_full_name (table : Table) : String :=
  dotJoin ([table.catalog, table.db, table.name].filter (fun p => p ≠ ""))

/-- The body of the `for lineage_node in node.walk()` loop (datasets.py
lines 78 to 99) applied to the list of walked nodes: skip nodes with
downstream dependents, skip nodes whose expression has no table
reference, and append one `InputField` per remaining node, in order. -/
def collectInputFields (ns : String) : List LNode → List InputField
  | [] => []
  | node :: rest =>
    match node.downstream with
    | _ :: _ => collectInputFields ns rest
    | [] =>
      match node.tableRef with
      | none => collectInputFields ns rest
      | some table =>
        { namespace_ := ns
          name := table_full_name table
          field := to_column_name node.name } :: collectInputFields ns rest

/-- The per column part of `snapshot_to_column_lineage_facet`: the value
stored in `fields[col_name]` when the column qualifies, `none` when the
lineage call raises (inner `except`, datasets.py lines 108 to 110) or no
input field is found (the `if input_fields` guard, line 101). -/
def perColumnFields (ns : String) (m : SMModel) (col : String) : Option Fields :=
  match m.lineage col with
  | .error _ => none
  | .ok node =>
    if collectInputFields ns node.walk = [] then none
    else some { inputFields := collectInputFields ns node.walk
                transformationType := "", transformationDescription := "" }

/-- The `for col_name in columns.keys()` loop of
`snapshot_to_column_lineage_facet` (datasets.py lines 70 to 110): build
the `fields` dict in column order, skipping columns whose lineage raises
and columns with no qualifying input field. -/
def collectFields (ns : String) (m : SMModel) : List (String × String) → List (String × Fields)
  | [] => []
  | (col, _) :: rest =>
    match m.lineage col with
    | .error _ => collectFields ns m rest
    | .ok node =>
      if collectInputFields ns node.walk = [] then collectFields ns m rest
      else (col, { inputFields := collectInputFields ns node.walk, transformationType := ""
                   transformationDescription := "" }) :: collectFields ns m rest

/-- `snapshot_to_column_lineage_facet` (datasets.py lines 42 to 119).
The outer `try` only guards the imports of the external lineage facility,
which are modelled as always succeeding; every failure point inside the
loop is already caught by the inner per column `except`. -/
def snapshot_to_column_lineage_facet (snapshot : Snapshot) (ns : String) :
    Option (List (String × Fields)) :=
  if snapshot.is_model = false then none
  else
    match snapshot.model with
    | none => none
    | some model =>
      if model.columns_to_types = [] then none
      else
        if collectFields ns model model.columns_to_types = [] then none
        else some (collectFields ns model model.columns_to_types)

/-- An `output_statistics_output_dataset.OutputStatisticsOutputDatasetFacet`. -/
structure OutputStatisticsFacet where
  rowCount : Int
  size : Option Int
  deriving DecidableEq

/-- A value of the string keyed facet dict attached to an output dataset. -/
inductive FacetValue : Type where
  | schema : List SchemaField → FacetValue
  | columnLineage : List (String × Fields) → FacetValue
  | outputStatistics : OutputStatisticsFacet → FacetValue
  deriving DecidableEq

/-- An `event_v2.OutputDataset`; `facets` is `None` when the dict would be
empty (`all_facets if all_facets else None`). -/
structure OutputDataset where
  namespace_ : String
  name : String
  facets : Option (List (String × FacetValue))
  deriving DecidableEq

/-- An `event_v2.InputDataset` (bare reference, no facets). -/
structure InputDataset where
  namespace_ : String
  name : String
  deriving DecidableEq

/-- `snapshot_to_output_dataset` (datasets.py lines 122 to 153): attach
the schema facet, then the column lineage facet, then merge the caller
supplied facets (Python `dict.update`, callers win on key collision). -/
def snapshot_to_output_dataset (snapshot : Snapshot) (ns : String)
    (facets : Option (List (String × FacetValue))) : Option OutputDataset :=
  if snapshot.is_model = false then none
  else
    let all0 : List (String × FacetValue) := []
    let all1 := match snapshot_to_schema_facet snapshot with
      | some sf => all0 ++ [("schema", FacetValue.schema sf)]
      | none => all0
    let all2 := match snapshot_to_column_lineage_facet snapshot ns with
      | some cl => all1 ++ [("columnLineage", FacetValue.columnLineage cl)]
      | none => all1
    let all3 := match facets with
      | some fs => fs.foldl (fun d p => dinsert d p.1 p.2) all2
      | none => all2
    some { namespace_ := ns
           name := snapshot_to_table_name snapshot
           facets := if all3 = [] then none else some all3 }

/-- `snapshot_to_input_datasets` (datasets.py lines 156 to 175): one bare
input dataset per parent name. -/
def snapshot_to_input_datasets (snapshot : Snapshot) (ns : String) : List InputDataset :=
  snapshot.parents.map (fun parent_name => { namespace_ := ns, name := parent_name })

/-! ## facets.py -/

/-- The custom `sqlmesh_execution` run facet built by `build_run_facets`;
a missing dict key is a `none` field. -/
structure SQLMeshExecutionFacet where
  durationMs : Option Int
  rowsProcessed : Option Int
  bytesProcessed : Option Int
  deriving DecidableEq

/-- `build_run_facets` (facets.py lines 10 to 35): the facet is present
exactly when a duration or execution stats were supplied. -/
def build_run_facets (duration_ms : Option Int)
    (execution_stats : Option QueryExecutionStats) : Option SQLMeshExecutionFacet :=
  if duration_ms.isSome ∨ execution_stats.isSome then
    some { durationMs := duration_ms
           rowsProcessed := execution_stats.bind (fun st => st.total_rows_processed)
           bytesProcessed := execution_stats.bind (fun st => st.total_bytes_processed) }
  else none

/-- `build_output_facets` (facets.py lines 38 to 55): an output statistics
facet only when stats with a row count were supplied. -/
def build_output_facets (execution_stats : Option QueryExecutionStats) :
    List (String × FacetValue) :=
  match execution_stats with
  | none => []
  | some st =>
    match st.total_rows_processed with
    | none => []
    | some rows =>
      [("outputStatistics", FacetValue.outputStatistics
        { rowCount := rows, size := st.total_bytes_processed })]

/-! ## emitter.py

Event timestamps (`eventTime`) are wall clock values and are not
modelled; no claim mentions them. -/

/-- `event_v2.RunState`. -/
inductive RunState : Type where
  | START
  | COMPLETE
  | FAIL
  deriving DecidableEq

/-- The `errorMessage` run facet attached by `emit_snapshot_fail`. -/
structure ErrorMessageFacet where
  message : String
  programmingLanguage : String
  deriving DecidableEq

/-- A `RunEvent` as assembled by the three emitter methods.  `runFacets`
holds the optional `sqlmesh_execution` facet (COMPLETE events) and
`errorMessage` the optional error facet (FAIL events); all other
`RunEvent` attributes that the emitter sets are included. -/
structure Event where
  eventType : RunState
  runId : String
  jobNamespace : String
  jobName : String
  inputs : List InputDataset
  outputs : List OutputDataset
  runFacets : Option SQLMeshExecutionFacet
  errorMessage : Option ErrorMessageFacet
  producer : String
  deriving DecidableEq

/-- The event assembled by `OpenLineageEmitter.emit_snapshot_start`
(emitter.py lines 40 to 65). -/
def emit_snapshot_start_event (ns : String) (snapshot : Snapshot) (run_id : String) : Event :=
  { eventType := RunState.START
    runId := run_id
    jobNamespace := ns
    jobName := snapshot.name
    inputs := snapshot_to_input_datasets snapshot ns
    outputs := (snapshot_to_output_dataset snapshot ns none).toList
    runFacets := none
    errorMessage := none
    producer := "sqlmesh-openlineage" }

/-- The event assembled by `OpenLineageEmitter.emit_snapshot_complete`
(emitter.py lines 67 to 100).  The `interval` argument of the Python
method is unused by its body and is omitted. -/
def emit_snapshot_complete_event (ns : String) (snapshot : Snapshot) (run_id : String)
    (duration_ms : Option Int) (execution_stats : Option QueryExecutionStats) : Event :=
  { eventType := RunState.COMPLETE
    runId := run_id
    jobNamespace := ns
    jobName := snapshot.name
    inputs := []
    outputs := (snapshot_to_output_dataset snapshot ns
      (some (build_output_facets execution_stats))).toList
    runFacets := build_run_facets duration_ms execution_stats
    errorMessage := none
    producer := "sqlmesh-openlineage" }

/-- The event assembled by `OpenLineageEmitter.emit_snapshot_fail`
(emitter.py lines 102 to 129). -/
def emit_snapshot_fail_event (ns : String) (snapshot : Snapshot) (run_id : String)
    (error : String) : Event :=
  { eventType := RunState.FAIL
    runId := run_id
    jobNamespace := ns
    jobName := snapshot.name
    inputs := []
    outputs := []
    runFacets := none
    errorMessage := some { message := error, programmingLanguage := "python" }
    producer := "sqlmesh-openlineage" }

/-! ## console.py -/

/-- The mutable tracking state of `OpenLineageConsole`:
`_active_runs` (snapshot name to run id) and `_current_snapshots`
(snapshot name to snapshot). -/
structure ConsoleState where
  active_runs : List (String × String)
  current_snapshots : List (String × Snapshot)

/-- The state of a freshly constructed console (console.py lines 36 to
39): both dicts empty. -/
def initState : ConsoleState :=
  { active_runs := [], current_snapshots := [] }

/-- The Event Sink model: which emissions succeed.  `ok ev = false`
means `client.emit(ev)` raises, aborting the callback at that point. -/
def EmitOk : Type := Event → Bool

/-- The always succeeding Event Sink. -/
def allOk : EmitOk := fun _ => true

/-- The outcome of one lifecycle callback: the state after the callback,
the events successfully delivered during it, and whether an emission
raised (the exception then propagates to the caller). -/
structure StepResult where
  state : ConsoleState
  events : List Event
  raised : Bool

/-- `start_evaluation_progress` (console.py lines 45 to 60): store every
snapshot of the batch under its name; no emission. -/
def startEvalStep (s : ConsoleState) (snapshots : List Snapshot) : ConsoleState :=
  { s with current_snapshots := snapshots.foldl (fun d snapshot => dinsert d snapshot.name snapshot) s.current_snapshots }

/-- `start_snapshot_evaluation_progress` (console.py lines 62 to 81):
record the fresh run id and the snapshot, then emit a START event.
`run_id` stands for the `str(uuid.uuid4())` value generated by the call;
uuid strings are never empty. -/
def startSnapStep (ns : String) (ok : EmitOk) (s : ConsoleState)
    (snapshot : Snapshot) (run_id : String) : StepResult :=
  let s' : ConsoleState :=
    { active_runs := dinsert s.active_runs snapshot.name run_id
      current_snapshots := dinsert s.current_snapshots snapshot.name snapshot }
  let ev := emit_snapshot_start_event ns snapshot run_id
  if ok ev then { state := s', events := [ev], raised := false }
  else { state := s', events := [], raised := true }

/-- `update_snapshot_evaluation_progress` (console.py lines 83 to 125):
pop the active run id for the snapshot name, then, when one was present
(and truthy), emit FAIL on audit failures, COMPLETE otherwise.  The
`interval`, `batch_idx`, `audit_only` and `auto_restatement_triggers`
arguments are not read by the intercepting logic and are omitted;
`num_audits_passed` is kept although unused, matching the signature. -/
def updateStep (ns : String) (ok : EmitOk) (s : ConsoleState) (snapshot : Snapshot)
    (duration_ms : Option Int) (num_audits_passed num_audits_failed : Nat)
    (execution_stats : Option QueryExecutionStats) : StepResult :=
  let run_id? := dget s.active_runs snapshot.name
  let s' : ConsoleState := { s with active_runs := dpop s.active_runs snapshot.name }
  match run_id? with
  | none => { state := s', events := [], raised := false }
  | some run_id =>
    if run_id = "" then { state := s', events := [], raised := false }
    else
      let ev :=
        if num_audits_failed > 0 then
          emit_snapshot_fail_event ns snapshot run_id
            ("Audit failed: " ++ toString num_audits_failed ++ " audit(s) failed")
        else
          emit_snapshot_complete_event ns snapshot run_id duration_ms execution_stats
      if ok ev then { state := s', events := [ev], raised := false }
      else { state := s', events := [], raised := true }

/-- The `for snapshot_name, run_id in list(self._active_runs.items())`
sweep of `stop_evaluation_progress` (console.py lines 130 to 137): emit a
FAIL event for every active entry whose snapshot is stored and whose run
id is truthy, stopping at the first failed emission.  Returns the events
delivered and whether an emission raised. -/
def stopSweep (ns : String) (ok : EmitOk) (snaps : List (String × Snapshot))
    (success : Bool) : List (String × String) → List Event × Bool
  | [] => ([], false)
  | (snapshot_name, run_id) :: rest =>
    match dget snaps snapshot_name with
    | none => stopSweep ns ok snaps success rest
    | some snapshot =>
      if run_id = "" then stopSweep ns ok snaps success rest
      else
        let ev := emit_snapshot_fail_event ns snapshot run_id
          (if success then "Unknown error" else "Evaluation interrupted")
        if ok ev then
          let r := stopSweep ns ok snaps success rest
          (ev :: r.1, r.2)
        else ([], true)

/-- `stop_evaluation_progress` (console.py lines 127 to 144): sweep the
still active runs, then clear both dicts.  When an emission raises, the
exception propagates before the `clear()` calls run, so the state is left
unchanged. -/
def stopStep (ns : String) (ok : EmitOk) (s : ConsoleState) (success : Bool) : StepResult :=
  let r := stopSweep ns ok s.current_snapshots success s.active_runs
  if r.2 then { state := s, events := r.1, raised := true }
  else { state := { active_runs := [], current_snapshots := [] }
         events := r.1, raised := false }

/-! ## Lifecycle traces -/

/-- One orchestrator callback, with the data it passes. -/
inductive Op : Type where
  | startEval (snapshots : List Snapshot)
  | startSnap (snapshot : Snapshot) (run_id : String)
  | update (snapshot : Snapshot) (duration_ms : Option Int)
      (num_audits_passed num_audits_failed : Nat)
      (execution_stats : Option QueryExecutionStats)
  | stop (success : Bool)

/-- Execute one callback. -/
def step (ns : String) (ok : EmitOk) (s : ConsoleState) : Op → StepResult
  | .startEval snapshots => { state := startEvalStep s snapshots, events := [], raised := false }
  | .startSnap snapshot run_id => startSnapStep ns ok s snapshot run_id
  | .update snapshot d p f st => updateStep ns ok s snapshot d p f st
  | .stop success => stopStep ns ok s success

/-- Execute a sequence of callbacks, collecting the delivered events.  An
emission failure propagates to the orchestrator and no further callback
runs. -/
def runTrace (ns : String) (ok : EmitOk) (s : ConsoleState) : List Op → ConsoleState × List Event
  | [] => (s, [])
  | op :: rest =>
    let r := step ns ok s op
    if r.raised then (r.state, r.events)
    else
      let rr := runTrace ns ok r.state rest
      (rr.1, r.events ++ rr.2)

/-- The `(name, run_id)` pairs of the start callbacks of a trace. -/
def startedRuns : List Op → List (String × String)
  | [] => []
  | .startSnap snapshot run_id :: rest => (snapshot.name, run_id) :: startedRuns rest
  | _ :: rest => startedRuns rest

/-- A trace respects the documented orchestrator discipline: every run id
is non-empty (uuid4) and globally fresh, and no snapshot is started while
it still has an active run (starting an active snapshot silently discards
the previous run id).  `used` collects the run ids generated so far. -/
def validFrom (ns : String) (used : List String) (s : ConsoleState) : List Op → Bool
  | [] => true
  | .startSnap snapshot run_id :: rest =>
    run_id ≠ "" && run_id ∉ used && dget s.active_runs snapshot.name = none &&
      validFrom ns (run_id :: used) (step ns allOk s (.startSnap snapshot run_id)).state rest
  | op :: rest => validFrom ns used (step ns allOk s op).state rest

/-- The console states reachable through lifecycle callbacks from a fresh
console, for any sequence of callbacks and any Event Sink behaviour.
Start callbacks carry a `str(uuid.uuid4())` run id, which is never the
empty string. -/
inductive Reachable (ns : String) : ConsoleState → Prop where
  | init : Reachable ns initState
  | startEval {s : ConsoleState} (snapshots : List Snapshot) :
      Reachable ns s → Reachable ns (startEvalStep s snapshots)
  | startSnap {s : ConsoleState} (ok : EmitOk) (snapshot : Snapshot) {run_id : String} :
      Reachable ns s → run_id ≠ "" →
      Reachable ns (startSnapStep ns ok s snapshot run_id).state
  | update {s : ConsoleState} (ok : EmitOk) (snapshot : Snapshot)
      (duration_ms : Option Int) (num_audits_passed num_audits_failed : Nat)
      (execution_stats : Option QueryExecutionStats) :
      Reachable ns s →
      Reachable ns (updateStep ns ok s snapshot duration_ms num_audits_passed
        num_audits_failed execution_stats).state
  | stop {s : ConsoleState} (ok : EmitOk) (success : Bool) :
      Reachable ns s → Reachable ns (stopStep ns ok s success).state

/-- A terminal event is a COMPLETE or FAIL event. -/
def isTerminal (ev : Event) : Bool :=
  ev.eventType = RunState.COMPLETE ∨ ev.eventType = RunState.FAIL

/-- The number of terminal events carrying the given run id. -/
def terminalCount (evs : List Event) (run_id : String) : Nat :=
  (evs.filter (fun ev => isTerminal ev && ev.runId = run_id)).length

/-! ## Specification side definitions and invariants -/

mutual

/-- Modelled from the spec (section 4.2): the qualifying leaves of a
dependency graph, in discovery order, with duplicates preserved.  A node
qualifies exactly when it has no downstream dependents and its expression
identifies a concrete source table; the pair collects that table and the
name naming the referenced column. -/
def specQualifyingLeaves : LNode → List (Table × String)
  | .mk n t ds =>
    (match ds with
     | [] => (match t with
              | some table => [(table, n)]
              | none => [])
     | _ :: _ => []) ++ specQualifyingLeavesAll ds

/-- The qualifying leaves of a list of graphs, in order. -/
def specQualifyingLeavesAll : List LNode → List (Table × String)
  | [] => []
  | d :: rest => specQualifyingLeaves d ++ specQualifyingLeavesAll rest

end

/-- The extraction applied to one qualifying leaf: table name joined from
its non-empty parts, column name from the leaf name. -/
def leafField (ns : String) (p : Table × String) : InputField :=
  { namespace_ := ns, name := table_full_name p.1, field := to_column_name p.2 }

/-- The per node step of the walk loop, as an optional contribution:
`none` for skipped nodes.  Used to restate `collectInputFields` as a
`filterMap`. -/
def nodeField (ns : String) (node : LNode) : Option InputField :=
  match node.downstream with
  | _ :: _ => none
  | [] =>
    match node.tableRef with
    | none => none
    | some table =>
      some { namespace_ := ns, name := table_full_name table
             field := to_column_name node.name }

/-- Well-formedness of a console state: active run keys are distinct,
stored snapshots are keyed by their own name, and every active run has a
non-empty run id and a stored snapshot. -/
def StateWF (s : ConsoleState) : Prop :=
  (s.active_runs.map Prod.fst).Nodup ∧
  (∀ name snapshot, dget s.current_snapshots name = some snapshot → snapshot.name = name) ∧
  (∀ name run_id, dget s.active_runs name = some run_id →
     run_id ≠ "" ∧ (dget s.current_snapshots name).isSome)

/-- The induction invariant for the terminal-event guarantee: `st` lists
the (name, run id) pairs started so far, `evs` the events delivered so
far.  Every started run is either still active under its own name with no
terminal event yet, or retired with exactly one terminal event; terminal
events only carry started run ids. -/
structure TraceInv (st : List (String × String)) (s : ConsoleState) (evs : List Event) : Prop where
  nodupKeys : (s.active_runs.map Prod.fst).Nodup
  ridsNodup : (st.map Prod.snd).Nodup
  ridsNe : ∀ p ∈ st, p.2 ≠ ""
  activeOk : ∀ name run_id, dget s.active_runs name = some run_id →
      run_id ≠ "" ∧ (dget s.current_snapshots name).isSome ∧ (name, run_id) ∈ st
  activeInj : ∀ n₁ n₂ r, dget s.active_runs n₁ = some r → dget s.active_runs n₂ = some r → n₁ = n₂
  started : ∀ p ∈ st, (dget s.active_runs p.1 = some p.2 ∧ terminalCount evs p.2 = 0)
      ∨ ((∀ n, dget s.active_runs n ≠ some p.2) ∧ terminalCount evs p.2 = 1)
  termOnly : ∀ ev ∈ evs, isTerminal ev = true → ev.runId ∈ st.map Prod.snd

/-! ## Concrete fixtures -/

/-- A plain snapshot that is not a model (the simplest entity). -/
def plainSnapshot (nm : String) : Snapshot :=
  { name := nm
    qualified_view_name := { catalog := "", schema_name := "", table := nm }
    is_model := false
    model := none
    parents := [] }

/-- A snapshot named `a`. -/
def snapA : Snapshot := plainSnapshot "a"

/-- A snapshot named `e`. -/
def snapE : Snapshot := plainSnapshot "e"

/-- A console state with one active run for `a`, its snapshot stored. -/
def oneActive : ConsoleState :=
  { active_runs := [("a", "r1")], current_snapshots := [("a", snapA)] }

/-- An Event Sink that rejects exactly the FAIL events. -/
def failOnFail : EmitOk := fun ev =>
  match ev.eventType with
  | RunState.FAIL => false
  | _ => true

/-- A snapshot whose qualified view name has only empty parts. -/
def emptyQvnSnapshot : Snapshot :=
  { name := "s"
    qualified_view_name := { catalog := "", schema_name := "", table := "" }
    is_model := false
    model := none
    parents := [] }

/-- A leaf node referencing column `c` of table `t`. -/
def leafTC : LNode := LNode.mk "t.c" (some { catalog := "", db := "", name := "t" }) []

/-- A dependency graph whose root has two leaf references to the same
upstream (table `t`, column `c`). -/
def dupNode : LNode := LNode.mk "root" none [leafTC, leafTC]

/-- A model with one column whose lineage is a single qualifying leaf. -/
def okLeafModel : SMModel :=
  { columns_to_types := [("c", "INT")], lineage := fun _ => Except.ok leafTC }

/-- A model snapshot carrying `okLeafModel`. -/
def okLeafSnapshot : Snapshot :=
  { name := "m"
    qualified_view_name := { catalog := "", schema_name := "", table := "m" }
    is_model := true
    model := some okLeafModel
    parents := [] }

/-- A model whose lineage facility raises for every column. -/
def errModel : SMModel :=
  { columns_to_types := [("id", "INT")], lineage := fun _ => Except.error () }

/-- A model snapshot carrying `errModel`. -/
def errSnapshot : Snapshot :=
  { name := "n"
    qualified_view_name := { catalog := "", schema_name := "", table := "n" }
    is_model := true
    model := some errModel
    parents := [] }

/-- A model with a column whose lineage raises and a sibling column with
a qualifying leaf. -/
def mixedModel : SMModel :=
  { columns_to_types := [("bad", "INT"), ("good", "INT")]
    lineage := fun c => if c = "bad" then Except.error () else Except.ok leafTC }

/-- A model snapshot carrying `mixedModel`. -/
def mixedSnapshot : Snapshot :=
  { name := "p"
    qualified_view_name := { catalog := "", schema_name := "", table := "p" }
    is_model := true
    model := some mixedModel
    parents := [] }

/-- The claimed invariant: every snapshot name with an active run id also
has a stored snapshot. -/
def ActiveHasSnapshot (s : ConsoleState) : Prop :=
  ∀ name run_id, dget s.active_runs name = some run_id →
    (dget s.current_snapshots name).isSome

/-- The fields value produced for column `c` of `okLeafModel`. -/
def fieldsC : Fields :=
  { inputFields := [{ namespace_ := "ns", name := "t", field := "c" }]
    transformationType := ""
    transformationDescription := "" }

/-! ## Library lemmas for the dict and join models -/

theorem dget_nil {α : Type} (k : String) : dget ([] : List (String × α)) k = none := rfl

theorem dget_cons {α : Type} (k' k : String) (v : α) (rest : List (String × α)) :
    dget ((k', v) :: rest) k = if k' = k then some v else dget rest k := rfl

theorem dget_eq_none_iff {α : Type} (l : List (String × α)) (k : String) :
    dget l k = none ↔ k ∉ l.map Prod.fst := by
  induction l with
  | nil => simp [dget]
  | cons p rest ih =>
    obtain ⟨k', v⟩ := p
    by_cases h : k' = k
    · subst h
      simp [dget]
    · rw [List.map_cons, List.mem_cons]
      simp only [dget, if_neg h]
      rw [ih]
      constructor
      · intro hn hmem
        rcases hmem with hmem | hmem
        · exact h hmem.symm
        · exact hn hmem
      · intro hn hmem
        exact hn (Or.inr hmem)

theorem dget_isSome_of_mem {α : Type} {l : List (String × α)} {k : String} {v : α}
    (h : (k, v) ∈ l) : (dget l k).isSome := by
  induction l with
  | nil => simp at h
  | cons p rest ih =>
    obtain ⟨k', v'⟩ := p
    rcases List.mem_cons.mp h with h1 | h1
    · have hk : k' = k := (congrArg Prod.fst h1).symm
      simp [dget, hk]
    · by_cases hk : k' = k
      · simp [dget, hk]
      · simpa [dget, hk] using ih h1

theorem dget_dinsert_self {α : Type} (l : List (String × α)) (k : String) (v : α) :
    dget (dinsert l k v) k = some v := by
  induction l with
  | nil => simp [dget, dinsert]
  | cons p rest ih =>
    obtain ⟨k', v'⟩ := p
    by_cases h : k' = k <;> simp [dget, dinsert, h, ih]

theorem dget_dinsert_ne {α : Type} (l : List (String × α)) (k k₀ : String) (v : α)
    (h : k₀ ≠ k) : dget (dinsert l k v) k₀ = dget l k₀ := by
  induction l with
  | nil => simp [dget, dinsert, Ne.symm h]
  | cons p rest ih =>
    obtain ⟨k', v'⟩ := p
    by_cases hk : k' = k
    · simp [dget, dinsert, hk, Ne.symm h]
    · by_cases hk0 : k' = k₀ <;> simp [dget, dinsert, hk, hk0, h, ih]

theorem keys_dinsert_of_mem {α : Type} (l : List (String × α)) (k : String) (v : α)
    (h : k ∈ l.map Prod.fst) : (dinsert l k v).map Prod.fst = l.map Prod.fst := by
  induction l with
  | nil => simp at h
  | cons p rest ih =>
    obtain ⟨k', v'⟩ := p
    by_cases hk : k' = k
    · simp [dinsert, hk]
    · rw [List.map_cons, List.mem_cons] at h
      have h2 : k ∈ rest.map Prod.fst := by
        rcases h with h | h
        · exact absurd h.symm hk
        · exact h
      simp [dinsert, hk, ih h2]

theorem dinsert_of_not_mem {α : Type} (l : List (String × α)) (k : String) (v : α)
    (h : k ∉ l.map Prod.fst) : dinsert l k v = l ++ [(k, v)] := by
  induction l with
  | nil => simp [dinsert]
  | cons p rest ih =>
    obtain ⟨k', v'⟩ := p
    rw [List.map_cons, List.mem_cons] at h
    push_neg at h
    have h1 : ¬ k' = k := fun hh => h.1 hh.symm
    simp [dinsert, h1, ih h.2]

theorem keys_nodup_dinsert {α : Type} (l : List (String × α)) (k : String) (v : α)
    (h : (l.map Prod.fst).Nodup) : ((dinsert l k v).map Prod.fst).Nodup := by
  by_cases hk : k ∈ l.map Prod.fst
  · rw [keys_dinsert_of_mem l k v hk]; exact h
  · rw [dinsert_of_not_mem l k v hk]
    simpa using List.Nodup.append h (by simp) (by simpa using hk)

theorem dget_dpop_ne {α : Type} (l : List (String × α)) (k k₀ : String)
    (h : k₀ ≠ k) : dget (dpop l k) k₀ = dget l k₀ := by
  induction l with
  | nil => simp [dpop]
  | cons p rest ih =>
    obtain ⟨k', v'⟩ := p
    by_cases hk : k' = k
    · simp [dget, dpop, hk, Ne.symm h]
    · by_cases hk0 : k' = k₀ <;> simp [dget, dpop, hk, hk0, h, ih]

theorem dget_dpop_self {α : Type} (l : List (String × α)) (k : String)
    (h : (l.map Prod.fst).Nodup) : dget (dpop l k) k = none := by
  induction l with
  | nil => simp [dpop, dget]
  | cons p rest ih =>
    obtain ⟨k', v'⟩ := p
    rw [List.map_cons, List.nodup_cons] at h
    by_cases hk : k' = k
    · subst hk
      simp only [dpop, if_pos rfl]
      rw [dget_eq_none_iff]
      exact h.1
    · simp [dpop, dget, hk, ih h.2]

theorem dpop_of_not_mem {α : Type} (l : List (String × α)) (k : String)
    (h : dget l k = none) : dpop l k = l := by
  induction l with
  | nil => simp [dpop]
  | cons p rest ih =>
    obtain ⟨k', v'⟩ := p
    by_cases hk : k' = k
    · simp [dget, hk] at h
    · simp [dget, hk] at h
      simp [dpop, hk, ih h]

theorem keys_dpop_sublist {α : Type} (l : List (String × α)) (k : String) :
    ((dpop l k).map Prod.fst).Sublist (l.map Prod.fst) := by
  induction l with
  | nil => simp [dpop]
  | cons p rest ih =>
    obtain ⟨k', v'⟩ := p
    by_cases hk : k' = k
    · simp only [dpop, if_pos hk, List.map_cons]
      exact List.sublist_cons_self _ _
    · simp only [dpop, if_neg hk, List.map_cons, List.cons_sublist_cons]
      exact ih

theorem keys_nodup_dpop {α : Type} (l : List (String × α)) (k : String)
    (h : (l.map Prod.fst).Nodup) : ((dpop l k).map Prod.fst).Nodup :=
  (keys_dpop_sublist l k).nodup h

/-! ## String joining (Python `".".join(...)`) -/

theorem String.data_append (a b : String) : (a ++ b).data = a.data ++ b.data := rfl

theorem string_append_ne_empty_left (a b : String) (h : a ≠ "") : a ++ b ≠ "" := by
  intro hab
  apply h
  have hd : (a ++ b).data = a.data ++ b.data := rfl
  have : a.data ++ b.data = [] := by
    rw [← hd, hab]
  rcases List.append_eq_nil.mp this with ⟨ha, _⟩
  cases a
  simp only at ha
  simp [ha]

theorem dotJoin_ne_empty (l : List String) (hne : ∀ p ∈ l, p ≠ "") (hl : l ≠ []) :
    dotJoin l ≠ "" := by
  match l with
  | [] => exact absurd rfl hl
  | [p] =>
    simpa [dotJoin] using hne p (by simp)
  | p :: q :: rest =>
    show p ++ "." ++ dotJoin (q :: rest) ≠ ""
    exact string_append_ne_empty_left _ _
      (string_append_ne_empty_left _ _ (hne p (by simp)))

theorem dotJoin_filter_eq_joinNonEmptyParts (l : List String) :
    dotJoin (l.filter (fun p => p ≠ "")) = joinNonEmptyParts l := by
  induction l with
  | nil => rfl
  | cons p rest ih =>
    by_cases hp : p = ""
    · simp only [joinNonEmptyParts, if_pos hp]
      rw [← ih]
      congr 1
      simp [hp]
    · have hfil : (p :: rest).filter (fun p => p ≠ "") =
          p :: rest.filter (fun p => p ≠ "") := by
        simp [hp]
      rw [hfil]
      simp only [joinNonEmptyParts, if_neg hp]
      by_cases hrest : joinNonEmptyParts rest = ""
      · rw [if_pos hrest]
        rw [← ih] at hrest
        have : rest.filter (fun p => p ≠ "") = [] := by
          by_contra hne
          exact dotJoin_ne_empty _ (fun q hq => by
            have := List.mem_filter.mp hq
            simpa using this.2) hne hrest
        rw [this]
        rfl
      · rw [if_neg hrest, ← ih]
        rw [← ih] at hrest
        match hm : rest.filter (fun p => p ≠ "") with
        | [] => rw [hm] at hrest; exact absurd rfl hrest
        | q :: rest' => rfl

/-! ## Step shape lemmas -/

theorem dget_some_mem {α : Type} {l : List (String × α)} {k : String} {v : α}
    (h : dget l k = some v) : (k, v) ∈ l := by
  induction l with
  | nil => simp [dget] at h
  | cons p rest ih =>
    obtain ⟨k', v'⟩ := p
    by_cases hk : k' = k
    · subst hk
      simp [dget] at h
      simp [h]
    · simp [dget, hk] at h
      simp [ih h]

theorem startSnapStep_state (ns : String) (ok : EmitOk) (s : ConsoleState)
    (snapshot : Snapshot) (run_id : String) :
    (startSnapStep ns ok s snapshot run_id).state =
      { active_runs := dinsert s.active_runs snapshot.name run_id
        current_snapshots := dinsert s.current_snapshots snapshot.name snapshot } := by
  unfold startSnapStep
  by_cases h : ok (emit_snapshot_start_event ns snapshot run_id) <;> simp [h]

theorem updateStep_state (ns : String) (ok : EmitOk) (s : ConsoleState)
    (snapshot : Snapshot) (duration_ms : Option Int) (np nf : Nat)
    (execution_stats : Option QueryExecutionStats) :
    (updateStep ns ok s snapshot duration_ms np nf execution_stats).state =
      { s with active_runs := dpop s.active_runs snapshot.name } := by
  unfold updateStep
  cases h : dget s.active_runs snapshot.name with
  | none => simp
  | some run_id =>
    by_cases hrid : run_id = ""
    · simp [hrid]
    · simp only [hrid, if_false]
      split <;> split <;> simp

theorem stopStep_state_raised (ns : String) (ok : EmitOk) (s : ConsoleState) (success : Bool)
    (h : (stopStep ns ok s success).raised = true) : (stopStep ns ok s success).state = s := by
  unfold stopStep at h ⊢
  cases hsw : (stopSweep ns ok s.current_snapshots success s.active_runs).2 <;>
    simp [hsw] at h ⊢

theorem stopStep_state_done (ns : String) (ok : EmitOk) (s : ConsoleState) (success : Bool)
    (h : (stopStep ns ok s success).raised = false) :
    (stopStep ns ok s success).state = initState := by
  unfold stopStep at h ⊢
  cases hsw : (stopSweep ns ok s.current_snapshots success s.active_runs).2 <;>
    simp [hsw, initState] at h ⊢

/-! ## Claim C8 -/

/-- C8, counterexample: a descriptor whose qualified name parts are all
empty is mapped to the empty string, so the joined name is not "never
empty" unconditionally. -/
theorem c8_counterexample : snapshot_to_table_name emptyQvnSnapshot = "" := rfl

/-- C8 (amended): the qualified dataset name equals the non-empty
qualified name parts (catalog, schema, table) joined with a dot, and it
is non-empty provided at least one part is non-empty. -/
theorem c8_table_name (snapshot : Snapshot) :
    snapshot_to_table_name snapshot =
      joinNonEmptyParts [snapshot.qualified_view_name.catalog,
        snapshot.qualified_view_name.schema_name,
        snapshot.qualified_view_name.table] ∧
    ((snapshot.qualified_view_name.catalog ≠ "" ∨
      snapshot.qualified_view_name.schema_name ≠ "" ∨
      snapshot.qualified_view_name.table ≠ "") →
      snapshot_to_table_name snapshot ≠ "") := by
  constructor
  · exact dotJoin_filter_eq_joinNonEmptyParts _
  · intro h
    unfold snapshot_to_table_name
    apply dotJoin_ne_empty
    · intro p hp
      simpa using (List.mem_filter.mp hp).2
    · intro hfil
      rw [List.filter_eq_nil_iff] at hfil
      have h1 := hfil snapshot.qualified_view_name.catalog (by simp)
      have h2 := hfil snapshot.qualified_view_name.schema_name (by simp)
      have h3 := hfil snapshot.qualified_view_name.table (by simp)
      simp at h1 h2 h3
      rcases h with h | h | h
      · exact h h1
      · exact h h2
      · exact h h3

/-- C8, witness: on a snapshot with table part `a` the name is
non-empty. -/
theorem c8_table_name_witness :
    snapA.qualified_view_name.table ≠ "" ∧ snapshot_to_table_name snapA ≠ "" :=
  ⟨by decide, (c8_table_name snapA).2 (Or.inr (Or.inr (by decide)))⟩

/-! ## Claim C7 -/

/-- C7: an update for a snapshot name with no active run emits nothing,
raises nothing and leaves the whole tracker state unchanged. -/
theorem c7_update_no_active (ns : String) (ok : EmitOk) (s : ConsoleState)
    (snapshot : Snapshot) (duration_ms : Option Int) (np nf : Nat)
    (execution_stats : Option QueryExecutionStats)
    (h : dget s.active_runs snapshot.name = none) :
    updateStep ns ok s snapshot duration_ms np nf execution_stats =
      { state := s, events := [], raised := false } := by
  unfold updateStep
  simp [h, dpop_of_not_mem _ _ h]

/-- C7, witness: updating the fresh console for snapshot `a` is a
no-op. -/
theorem c7_update_no_active_witness :
    dget initState.active_runs snapA.name = none ∧
    updateStep "sqlmesh" allOk initState snapA none 0 0 none =
      { state := initState, events := [], raised := false } :=
  ⟨rfl, c7_update_no_active "sqlmesh" allOk initState snapA none 0 0 none rfl⟩

/-! ## Claim C2 -/

/-- C2, counterexample: with one active run and an Event Sink that
rejects FAIL events, `stop_evaluation_progress` raises and leaves both
mappings unchanged (not cleared), contradicting the claim that the
mappings are cleared even when emitting a FAIL event raises. -/
theorem c2_counterexample :
    (stopStep "sqlmesh" failOnFail oneActive true).raised = true ∧
    (stopStep "sqlmesh" failOnFail oneActive true).state.active_runs = [("a", "r1")] ∧
    (stopStep "sqlmesh" failOnFail oneActive true).state.current_snapshots.map Prod.fst
      = ["a"] :=
  ⟨rfl, rfl, rfl⟩

/-- C2 (amended): when an emission raises, the error propagates, and for
`start_snapshot_evaluation_progress` and
`update_snapshot_evaluation_progress` the in-memory state is exactly the
as-if-success state; `stop_evaluation_progress` however clears the two
mappings only when no emission raises - when emitting a FAIL event for an
active run raises, both mappings are left exactly as they were before the
call. -/
theorem c2_emission_failure_state (ns : String) (ok : EmitOk) (s : ConsoleState)
    (snapshot : Snapshot) (run_id : String) (duration_ms : Option Int) (np nf : Nat)
    (execution_stats : Option QueryExecutionStats) (success : Bool) :
    ((startSnapStep ns ok s snapshot run_id).state =
      (startSnapStep ns allOk s snapshot run_id).state) ∧
    ((updateStep ns ok s snapshot duration_ms np nf execution_stats).state =
      (updateStep ns allOk s snapshot duration_ms np nf execution_stats).state) ∧
    ((stopStep ns ok s success).raised = true → (stopStep ns ok s success).state = s) ∧
    ((stopStep ns ok s success).raised = false →
      (stopStep ns ok s success).state = initState) := by
  refine ⟨?_, ?_, ?_, ?_⟩
  · rw [startSnapStep_state, startSnapStep_state]
  · rw [updateStep_state, updateStep_state]
  · exact stopStep_state_raised ns ok s success
  · exact stopStep_state_done ns ok s success

/-- C2, witness: at the counterexample input the raising stop leaves the
state unchanged, as the amended claim states. -/
theorem c2_emission_failure_state_witness :
    (stopStep "sqlmesh" failOnFail oneActive true).state = oneActive :=
  (c2_emission_failure_state "sqlmesh" failOnFail oneActive snapA "r1" none 0 0 none
    true).2.2.1 rfl

/-! ## Claim C3 -/

/-- C3: an update for a snapshot with an active run emits exactly one
terminal event carrying that run id: FAIL with the failed-audit count in
the message when audits failed, COMPLETE with duration and execution
statistics attached when supplied otherwise. -/
theorem c3_update_terminal (ns : String) (s : ConsoleState) (snapshot : Snapshot)
    (duration_ms : Option Int) (np nf : Nat) (execution_stats : Option QueryExecutionStats)
    (run_id : String) (h : dget s.active_runs snapshot.name = some run_id)
    (hne : run_id ≠ "") :
    ∃ ev, (updateStep ns allOk s snapshot duration_ms np nf execution_stats).events = [ev] ∧
      ev.runId = run_id ∧
      (0 < nf → ev.eventType = RunState.FAIL ∧
        ∃ pre post, ev.errorMessage =
          some { message := pre ++ toString nf ++ post, programmingLanguage := "python" }) ∧
      (nf = 0 → ev.eventType = RunState.COMPLETE ∧
        ev.runFacets = build_run_facets duration_ms execution_stats ∧
        ((duration_ms.isSome ∨ execution_stats.isSome) → ∃ fac,
          ev.runFacets = some fac ∧ fac.durationMs = duration_ms ∧
          fac.rowsProcessed = execution_stats.bind (fun q => q.total_rows_processed) ∧
          fac.bytesProcessed = execution_stats.bind (fun q => q.total_bytes_processed))) := by
  by_cases hnf : 0 < nf
  · refine ⟨emit_snapshot_fail_event ns snapshot run_id
      ("Audit failed: " ++ toString nf ++ " audit(s) failed"), ?_, rfl, ?_, ?_⟩
    · simp [updateStep, h, hne, hnf, allOk]
    · intro _
      exact ⟨rfl, "Audit failed: ", " audit(s) failed", rfl⟩
    · intro h0
      omega
  · have hnf0 : nf = 0 := by omega
    subst hnf0
    refine ⟨emit_snapshot_complete_event ns snapshot run_id duration_ms execution_stats,
      ?_, rfl, ?_, ?_⟩
    · simp [updateStep, h, hne, allOk]
    · intro hc
      omega
    · intro _
      refine ⟨rfl, rfl, ?_⟩
      intro hsup
      refine ⟨{ durationMs := duration_ms
                rowsProcessed := execution_stats.bind (fun q => q.total_rows_processed)
                bytesProcessed := execution_stats.bind (fun q => q.total_bytes_processed) },
        ?_, rfl, rfl, rfl⟩
      show build_run_facets duration_ms execution_stats = some _
      unfold build_run_facets
      rw [if_pos hsup]

/-- C3, witness: updating the one-active-run state for snapshot `a` with
two failed audits emits one FAIL event with the count in its message. -/
theorem c3_update_terminal_witness :
    ∃ ev, (updateStep "sqlmesh" allOk oneActive snapA none 0 2 none).events = [ev] ∧
      ev.runId = "r1" ∧
      (0 < 2 → ev.eventType = RunState.FAIL ∧
        ∃ pre post, ev.errorMessage =
          some { message := pre ++ toString 2 ++ post, programmingLanguage := "python" }) ∧
      (2 = 0 → ev.eventType = RunState.COMPLETE ∧
        ev.runFacets = build_run_facets none none ∧
        (((none : Option Int)).isSome ∨ ((none : Option QueryExecutionStats)).isSome → ∃ fac,
          ev.runFacets = some fac ∧ fac.durationMs = none ∧
          fac.rowsProcessed = (none : Option QueryExecutionStats).bind (fun q => q.total_rows_processed) ∧
          fac.bytesProcessed = (none : Option QueryExecutionStats).bind (fun q => q.total_bytes_processed))) :=
  c3_update_terminal "sqlmesh" oneActive snapA none 0 2 none "r1" rfl (by decide)

/-! ## Claim C9 -/

theorem perColumnFields_some (ns : String) (m : SMModel) (col : String) (f : Fields)
    (h : perColumnFields ns m col = some f) : f.inputFields ≠ [] := by
  unfold perColumnFields at h
  split at h
  · cases h
  · split at h
    · cases h
    · rename_i hne
      rw [← Option.some.inj h]
      simpa using hne

theorem collectFields_eq_filterMap (ns : String) (m : SMModel)
    (cols : List (String × String)) :
    collectFields ns m cols =
      cols.filterMap (fun p => (perColumnFields ns m p.1).map (fun f => (p.1, f))) := by
  induction cols with
  | nil => rfl
  | cons c rest ih =>
    obtain ⟨col, ty⟩ := c
    unfold collectFields perColumnFields
    cases hl : m.lineage col with
    | error e => simpa [hl] using ih
    | ok node =>
      by_cases hifs : collectInputFields ns node.walk = []
      · simpa [hl, hifs] using ih
      · simpa [hl, hifs] using ih

theorem mem_collectFields_inputs_ne_nil (ns : String) (m : SMModel)
    (cols : List (String × String)) (p : String × Fields)
    (hp : p ∈ collectFields ns m cols) : p.2.inputFields ≠ [] := by
  rw [collectFields_eq_filterMap] at hp
  obtain ⟨a, ha, hmap⟩ := List.mem_filterMap.mp hp
  cases hpc : perColumnFields ns m a.1 with
  | none => rw [hpc] at hmap; cases hmap
  | some f =>
    rw [hpc] at hmap
    have hpf : p = (a.1, f) := by simpa using hmap.symm
    rw [hpf]
    exact perColumnFields_some ns m a.1 f hpc

/-- C9: the lineage facet, when produced, is a non-empty mapping whose
entries all have at least one input reference; and when every column of
the model yields no qualifying reference (or raises), no facet is
produced at all rather than an empty mapping. -/
theorem c9_nonempty_refs :
    (∀ (snapshot : Snapshot) (ns : String) (fs : List (String × Fields)),
      snapshot_to_column_lineage_facet snapshot ns = some fs →
      fs ≠ [] ∧ ∀ p ∈ fs, p.2.inputFields ≠ []) ∧
    (∀ (snapshot : Snapshot) (ns : String) (m : SMModel),
      snapshot.model = some m →
      (∀ col ∈ m.columns_to_types.map Prod.fst, perColumnFields ns m col = none) →
      snapshot_to_column_lineage_facet snapshot ns = none) := by
  constructor
  · intro snapshot ns fs h
    unfold snapshot_to_column_lineage_facet at h
    split at h
    · cases h
    · split at h
      · cases h
      · rename_i m heq
        split at h
        · cases h
        · split at h
          · cases h
          · rename_i hfs
            rw [← Option.some.inj h]
            exact ⟨hfs, fun p hp => mem_collectFields_inputs_ne_nil ns m _ p hp⟩
  · intro snapshot ns m hm hall
    unfold snapshot_to_column_lineage_facet
    split
    · rfl
    · split
      · rfl
      · rename_i m' heq
        have hmm : m = m' := by
          rw [hm] at heq
          exact Option.some.inj heq
        subst hmm
        split
        · rfl
        · have hempty : collectFields ns m m.columns_to_types = [] := by
            rw [collectFields_eq_filterMap, List.filterMap_eq_nil_iff]
            intro p hp
            rw [hall p.1 (List.mem_map_of_mem Prod.fst hp)]
            rfl
          simp [hempty]

/-- C9, witness: the one-leaf model yields a non-empty facet with a
non-empty reference list, and the always-raising model yields no facet. -/
theorem c9_nonempty_refs_witness :
    (([("c", fieldsC)] : List (String × Fields)) ≠ [] ∧
      ∀ p ∈ ([("c", fieldsC)] : List (String × Fields)), p.2.inputFields ≠ []) ∧
    snapshot_to_column_lineage_facet errSnapshot "ns" = none :=
  ⟨c9_nonempty_refs.1 okLeafSnapshot "ns" [("c", fieldsC)] rfl,
    c9_nonempty_refs.2 errSnapshot "ns" errModel rfl (fun col _ => rfl)⟩

/-! ## Claim C5 -/

theorem collectInputFields_eq_filterMap (ns : String) (nodes : List LNode) :
    collectInputFields ns nodes = nodes.filterMap (nodeField ns) := by
  induction nodes with
  | nil => rfl
  | cons node rest ih =>
    unfold collectInputFields nodeField
    cases hds : node.downstream with
    | cons d ds => simpa [hds] using ih
    | nil =>
      cases htr : node.tableRef with
      | none => simpa [hds, htr] using ih
      | some table => simpa [hds, htr] using ih

theorem collectInputFields_append (ns : String) (l₁ l₂ : List LNode) :
    collectInputFields ns (l₁ ++ l₂) =
      collectInputFields ns l₁ ++ collectInputFields ns l₂ := by
  rw [collectInputFields_eq_filterMap, collectInputFields_eq_filterMap,
    collectInputFields_eq_filterMap, List.filterMap_append]

mutual

theorem collect_walk_eq (ns : String) : ∀ (node : LNode),
    collectInputFields ns node.walk = (specQualifyingLeaves node).map (leafField ns)
  | .mk n t ds => by
    cases ds with
    | nil =>
      cases t with
      | none => rfl
      | some table => rfl
    | cons d ds' =>
      have hAll := collect_walkAll_eq ns (d :: ds')
      show collectInputFields ns
          (LNode.mk n t (d :: ds') :: walkAll (d :: ds')) = _
      rw [show collectInputFields ns
          (LNode.mk n t (d :: ds') :: walkAll (d :: ds')) =
          collectInputFields ns (walkAll (d :: ds')) from rfl]
      rw [hAll]
      rfl

theorem collect_walkAll_eq (ns : String) : ∀ (nodes : List LNode),
    collectInputFields ns (walkAll nodes) =
      (specQualifyingLeavesAll nodes).map (leafField ns)
  | [] => rfl
  | d :: rest => by
    rw [show walkAll (d :: rest) = d.walk ++ walkAll rest from rfl]
    rw [collectInputFields_append]
    rw [collect_walk_eq ns d, collect_walkAll_eq ns rest]
    rw [show specQualifyingLeavesAll (d :: rest) =
      specQualifyingLeaves d ++ specQualifyingLeavesAll rest from rfl]
    rw [List.map_append]

end

/-- C5: walking a column dependency graph collects exactly the
qualifying leaves (no downstream dependents and a concrete table
reference), in discovery order, preserving duplicates; in particular a
graph with two leaf references to the same upstream (table, column)
yields both entries. -/
theorem c5_collect_leaves :
    (∀ (ns : String) (node : LNode),
      collectInputFields ns node.walk = (specQualifyingLeaves node).map (leafField ns)) ∧
    collectInputFields "ns" dupNode.walk =
      [{ namespace_ := "ns", name := "t", field := "c" },
       { namespace_ := "ns", name := "t", field := "c" }] :=
  ⟨fun ns node => collect_walk_eq ns node, rfl⟩

/-! ## Claim C6 -/

theorem keys_collectFields_subset (ns : String) (m : SMModel)
    (cols : List (String × String)) (k : String)
    (hk : k ∈ (collectFields ns m cols).map Prod.fst) : k ∈ cols.map Prod.fst := by
  rw [collectFields_eq_filterMap] at hk
  obtain ⟨p, hp, hpk⟩ := List.mem_map.mp hk
  obtain ⟨a, ha, hmap⟩ := List.mem_filterMap.mp hp
  cases hpc : perColumnFields ns m a.1 with
  | none => rw [hpc] at hmap; cases hmap
  | some f =>
    rw [hpc] at hmap
    have : p = (a.1, f) := by simpa using hmap.symm
    subst this
    rw [← hpk]
    exact List.mem_map_of_mem Prod.fst ha

theorem dget_collectFields_none (ns : String) (m : SMModel)
    (cols : List (String × String)) (col : String)
    (h : perColumnFields ns m col = none) :
    dget (collectFields ns m cols) col = none := by
  rw [dget_eq_none_iff]
  intro hk
  rw [collectFields_eq_filterMap] at hk
  obtain ⟨p, hp, hpk⟩ := List.mem_map.mp hk
  obtain ⟨a, ha, hmap⟩ := List.mem_filterMap.mp hp
  cases hpc : perColumnFields ns m a.1 with
  | none => rw [hpc] at hmap; cases hmap
  | some f =>
    rw [hpc] at hmap
    have hpaf : p = (a.1, f) := by simpa using hmap.symm
    subst hpaf
    simp only at hpk
    rw [hpk] at hpc
    rw [h] at hpc
    cases hpc

theorem dget_collectFields_some (ns : String) (m : SMModel) :
    ∀ (cols : List (String × String)) (col' ty' : String),
      (col', ty') ∈ cols → (cols.map Prod.fst).Nodup →
      dget (collectFields ns m cols) col' = perColumnFields ns m col' := by
  intro cols
  induction cols with
  | nil => intro col' ty' hmem; simp at hmem
  | cons c rest ih =>
    intro col' ty' hmem hnodup
    obtain ⟨cn, ct⟩ := c
    rw [List.map_cons, List.nodup_cons] at hnodup
    rcases List.mem_cons.mp hmem with hmem | hmem
    · have hcn : cn = col' := (congrArg Prod.fst hmem).symm
      subst hcn
      cases hl : m.lineage cn with
      | error e =>
        have hcf : collectFields ns m ((cn, ct) :: rest) = collectFields ns m rest := by
          simp only [collectFields]
          rw [hl]
        have hpc : perColumnFields ns m cn = none := by
          unfold perColumnFields
          rw [hl]
        rw [hcf, hpc, dget_eq_none_iff]
        intro hk
        exact hnodup.1 (keys_collectFields_subset ns m rest cn hk)
      | ok node =>
        by_cases hifs : collectInputFields ns node.walk = []
        · have hcf : collectFields ns m ((cn, ct) :: rest) = collectFields ns m rest := by
            simp only [collectFields]
            rw [hl]
            simp [hifs]
          have hpc : perColumnFields ns m cn = none := by
            unfold perColumnFields
            rw [hl]
            simp [hifs]
          rw [hcf, hpc, dget_eq_none_iff]
          intro hk
          exact hnodup.1 (keys_collectFields_subset ns m rest cn hk)
        · have hcf : collectFields ns m ((cn, ct) :: rest) =
              (cn, { inputFields := collectInputFields ns node.walk
                     transformationType := "", transformationDescription := "" }) ::
                collectFields ns m rest := by
            simp only [collectFields]
            rw [hl]
            simp [hifs]
          have hpc : perColumnFields ns m cn =
              some { inputFields := collectInputFields ns node.walk
                     transformationType := "", transformationDescription := "" } := by
            unfold perColumnFields
            rw [hl]
            simp [hifs]
          rw [hcf, hpc, dget_cons, if_pos rfl]
    · have hcn : cn ≠ col' := by
        intro he
        subst he
        exact hnodup.1 (by simpa using List.mem_map_of_mem Prod.fst hmem)
      cases hl : m.lineage cn with
      | error e =>
        have hcf : collectFields ns m ((cn, ct) :: rest) = collectFields ns m rest := by
          simp only [collectFields]
          rw [hl]
        rw [hcf]
        exact ih col' ty' hmem hnodup.2
      | ok node =>
        by_cases hifs : collectInputFields ns node.walk = []
        · have hcf : collectFields ns m ((cn, ct) :: rest) = collectFields ns m rest := by
            simp only [collectFields]
            rw [hl]
            simp [hifs]
          rw [hcf]
          exact ih col' ty' hmem hnodup.2
        · have hcf : collectFields ns m ((cn, ct) :: rest) =
              (cn, { inputFields := collectInputFields ns node.walk
                     transformationType := "", transformationDescription := "" }) ::
                collectFields ns m rest := by
            simp only [collectFields]
            rw [hl]
            simp [hifs]
          rw [hcf, dget_cons, if_neg hcn]
          exact ih col' ty' hmem hnodup.2

theorem facet_none_collect_empty (snapshot : Snapshot) (ns : String) (m : SMModel)
    (him : snapshot.is_model = true) (hm : snapshot.model = some m)
    (hcols : m.columns_to_types ≠ [])
    (h : snapshot_to_column_lineage_facet snapshot ns = none) :
    collectFields ns m m.columns_to_types = [] := by
  unfold snapshot_to_column_lineage_facet at h
  split at h
  · rename_i hfalse
    rw [him] at hfalse
    cases hfalse
  · split at h
    · rename_i heq
      rw [hm] at heq
      cases heq
    · rename_i m' heq
      have hmm : m' = m := by
        rw [hm] at heq
        exact (Option.some.inj heq).symm
      subst hmm
      split at h
      · rename_i hc
        exact absurd hc hcols
      · split at h
        · rename_i hc
          exact hc
        · cases h

theorem facet_some_eq (snapshot : Snapshot) (ns : String) (m : SMModel)
    (hm : snapshot.model = some m) (fs : List (String × Fields))
    (h : snapshot_to_column_lineage_facet snapshot ns = some fs) :
    fs = collectFields ns m m.columns_to_types := by
  unfold snapshot_to_column_lineage_facet at h
  split at h
  · cases h
  · split at h
    · cases h
    · rename_i m' heq
      have hmm : m' = m := by
        rw [hm] at heq
        exact (Option.some.inj heq).symm
      subst hmm
      split at h
      · cases h
      · split at h
        · cases h
        · exact (Option.some.inj h).symm

/-- C6: when the lineage facility raises for one column, that column is
absent from the result mapping, every sibling column still gets exactly
its own per column result (the traversal error does not abort the
extraction), and no error reaches the caller; when no facet is produced
at all, every sibling column was still processed and simply yielded no
qualifying reference. -/
theorem c6_per_column_isolation (ns : String) (snapshot : Snapshot) (m : SMModel)
    (col ty : String) (him : snapshot.is_model = true) (hm : snapshot.model = some m)
    (hmem : (col, ty) ∈ m.columns_to_types)
    (hnodup : (m.columns_to_types.map Prod.fst).Nodup)
    (herr : m.lineage col = Except.error ()) :
    (∀ fs, snapshot_to_column_lineage_facet snapshot ns = some fs → dget fs col = none) ∧
    (∀ col' ty', (col', ty') ∈ m.columns_to_types → col' ≠ col →
      ∀ fs, snapshot_to_column_lineage_facet snapshot ns = some fs →
        dget fs col' = perColumnFields ns m col') ∧
    (snapshot_to_column_lineage_facet snapshot ns = none →
      ∀ col' ty', (col', ty') ∈ m.columns_to_types →
        perColumnFields ns m col' = none) := by
  refine ⟨?_, ?_, ?_⟩
  · intro fs hfs
    rw [facet_some_eq snapshot ns m hm fs hfs]
    apply dget_collectFields_none
    unfold perColumnFields
    rw [herr]
  · intro col' ty' hmem' hne fs hfs
    rw [facet_some_eq snapshot ns m hm fs hfs]
    exact dget_collectFields_some ns m m.columns_to_types col' ty' hmem' hnodup
  · intro hnone col' ty' hmem'
    have hcols : m.columns_to_types ≠ [] := by
      intro hc
      rw [hc] at hmem
      simp at hmem
    have hempty := facet_none_collect_empty snapshot ns m him hm hcols hnone
    have := dget_collectFields_some ns m m.columns_to_types col' ty' hmem' hnodup
    rw [hempty] at this
    exact this.symm

/-- C6, witness: in the two column model where the lineage of `bad`
raises, `bad` is excluded and `good` keeps its own result. -/
theorem c6_per_column_isolation_witness :
    (∀ fs, snapshot_to_column_lineage_facet mixedSnapshot "ns" = some fs →
      dget fs "bad" = none) ∧
    (∀ col' ty', (col', ty') ∈ mixedModel.columns_to_types → col' ≠ "bad" →
      ∀ fs, snapshot_to_column_lineage_facet mixedSnapshot "ns" = some fs →
        dget fs col' = perColumnFields "ns" mixedModel col') ∧
    (snapshot_to_column_lineage_facet mixedSnapshot "ns" = none →
      ∀ col' ty', (col', ty') ∈ mixedModel.columns_to_types →
        perColumnFields "ns" mixedModel col' = none) :=
  c6_per_column_isolation "ns" mixedSnapshot mixedModel "bad" "INT" rfl rfl
    (by decide) (by decide) rfl

/-! ## Claim C10 -/

theorem dget_foldl_dinsert_isSome (snapshots : List Snapshot)
    (d : List (String × Snapshot)) (k : String) (h : (dget d k).isSome) :
    (dget (snapshots.foldl (fun d snapshot => dinsert d snapshot.name snapshot) d) k).isSome := by
  induction snapshots generalizing d with
  | nil => exact h
  | cons sn rest ih =>
    apply ih
    by_cases hk : sn.name = k
    · subst hk
      rw [dget_dinsert_self]
      rfl
    · rw [dget_dinsert_ne _ _ _ _ (Ne.symm hk)]
      exact h

theorem dget_foldl_dinsert_coherent (snapshots : List Snapshot)
    (d : List (String × Snapshot))
    (hc : ∀ k v, dget d k = some v → v.name = k) :
    ∀ k v, dget (snapshots.foldl (fun d snapshot => dinsert d snapshot.name snapshot) d) k
      = some v → v.name = k := by
  induction snapshots generalizing d with
  | nil => exact hc
  | cons sn rest ih =>
    apply ih
    intro k v hkv
    by_cases hk : sn.name = k
    · subst hk
      rw [dget_dinsert_self] at hkv
      rw [← Option.some.inj hkv]
    · rw [dget_dinsert_ne _ _ _ _ (Ne.symm hk)] at hkv
      exact hc k v hkv

theorem dget_dpop_isSome {α : Type} (l : List (String × α)) (k : String) (v : α)
    (h : dget (dpop l k) k = some v) : (dget l k).isSome := by
  cases hdg : dget l k with
  | none =>
    rw [dpop_of_not_mem _ _ hdg] at h
    rw [h] at hdg
    cases hdg
  | some w => rfl

theorem activeHasSnapshot_startEval (s : ConsoleState) (snapshots : List Snapshot)
    (h : ActiveHasSnapshot s) : ActiveHasSnapshot (startEvalStep s snapshots) := by
  intro name run_id hr
  exact dget_foldl_dinsert_isSome snapshots s.current_snapshots name (h name run_id hr)

theorem activeHasSnapshot_startSnap (ns : String) (ok : EmitOk) (s : ConsoleState)
    (snapshot : Snapshot) (run_id : String) (h : ActiveHasSnapshot s) :
    ActiveHasSnapshot (startSnapStep ns ok s snapshot run_id).state := by
  rw [startSnapStep_state]
  intro name rid hr
  by_cases hn : name = snapshot.name
  · subst hn
    rw [dget_dinsert_self]
    rfl
  · rw [dget_dinsert_ne _ _ _ _ hn] at hr
    rw [dget_dinsert_ne _ _ _ _ hn]
    exact h name rid hr

theorem activeHasSnapshot_update (ns : String) (ok : EmitOk) (s : ConsoleState)
    (snapshot : Snapshot) (duration_ms : Option Int) (np nf : Nat)
    (execution_stats : Option QueryExecutionStats) (h : ActiveHasSnapshot s) :
    ActiveHasSnapshot (updateStep ns ok s snapshot duration_ms np nf execution_stats).state := by
  rw [updateStep_state]
  intro name rid hr
  by_cases hn : name = snapshot.name
  · subst hn
    have := dget_dpop_isSome s.active_runs snapshot.name rid hr
    obtain ⟨rid₀, hrid₀⟩ := Option.isSome_iff_exists.mp this
    exact h snapshot.name rid₀ hrid₀
  · rw [dget_dpop_ne _ _ _ hn] at hr
    exact h name rid hr

theorem activeHasSnapshot_stop (ns : String) (ok : EmitOk) (s : ConsoleState)
    (success : Bool) (h : ActiveHasSnapshot s) :
    ActiveHasSnapshot (stopStep ns ok s success).state := by
  cases hres : (stopStep ns ok s success).raised with
  | true =>
    rw [stopStep_state_raised ns ok s success hres]
    exact h
  | false =>
    rw [stopStep_state_done ns ok s success hres]
    intro name rid hr
    cases hr

/-- C10: every lifecycle callback preserves the invariant that a snapshot
name with an active run id also has a stored snapshot, and consequently
the invariant holds in every reachable console state, so the phase-stop
sweep always finds a snapshot for an active run. -/
theorem c10_active_has_snapshot (ns : String) :
    (∀ (s : ConsoleState) (snapshots : List Snapshot),
      ActiveHasSnapshot s → ActiveHasSnapshot (startEvalStep s snapshots)) ∧
    (∀ (ok : EmitOk) (s : ConsoleState) (snapshot : Snapshot) (run_id : String),
      ActiveHasSnapshot s → ActiveHasSnapshot (startSnapStep ns ok s snapshot run_id).state) ∧
    (∀ (ok : EmitOk) (s : ConsoleState) (snapshot : Snapshot) (duration_ms : Option Int)
      (np nf : Nat) (execution_stats : Option QueryExecutionStats),
      ActiveHasSnapshot s →
      ActiveHasSnapshot (updateStep ns ok s snapshot duration_ms np nf execution_stats).state) ∧
    (∀ (ok : EmitOk) (s : ConsoleState) (success : Bool),
      ActiveHasSnapshot s → ActiveHasSnapshot (stopStep ns ok s success).state) ∧
    (∀ s, Reachable ns s → ActiveHasSnapshot s) := by
  refine ⟨activeHasSnapshot_startEval, activeHasSnapshot_startSnap ns,
    activeHasSnapshot_update ns, activeHasSnapshot_stop ns, ?_⟩
  intro s h
  induction h with
  | init => intro name rid hr; cases hr
  | startEval snapshots hr ih => exact activeHasSnapshot_startEval _ snapshots ih
  | startSnap ok snapshot hr hne ih => exact activeHasSnapshot_startSnap ns ok _ snapshot _ ih
  | update ok snapshot d np nf st hr ih => exact activeHasSnapshot_update ns ok _ snapshot d np nf st ih
  | stop ok success hr ih => exact activeHasSnapshot_stop ns ok _ success ih

/-- C10, witness: the invariant holds in the reachable state with one
started run. -/
theorem c10_active_has_snapshot_witness :
    ActiveHasSnapshot (startSnapStep "sqlmesh" allOk initState snapA "r1").state :=
  (c10_active_has_snapshot "sqlmesh").2.2.2.2 _
    (Reachable.startSnap allOk snapA Reachable.init (by decide))

/-! ## Claim C4 -/

theorem reachable_wf (ns : String) (s : ConsoleState) (h : Reachable ns s) : StateWF s := by
  induction h with
  | init =>
    refine ⟨List.nodup_nil, ?_, ?_⟩
    · intro name snapshot h
      cases h
    · intro name rid h
      cases h
  | startEval snapshots hr ih =>
    obtain ⟨hnd, hcoh, hact⟩ := ih
    refine ⟨hnd, ?_, ?_⟩
    · exact dget_foldl_dinsert_coherent snapshots _ hcoh
    · intro name rid hr'
      obtain ⟨hne, hsome⟩ := hact name rid hr'
      exact ⟨hne, dget_foldl_dinsert_isSome _ _ _ hsome⟩
  | startSnap ok snapshot hr hrid ih =>
    obtain ⟨hnd, hcoh, hact⟩ := ih
    rw [startSnapStep_state]
    refine ⟨keys_nodup_dinsert _ _ _ hnd, ?_, ?_⟩
    · intro k v hkv
      by_cases hk : k = snapshot.name
      · subst hk
        rw [dget_dinsert_self] at hkv
        rw [← Option.some.inj hkv]
      · rw [dget_dinsert_ne _ _ _ _ hk] at hkv
        exact hcoh k v hkv
    · intro name rid hr'
      by_cases hn : name = snapshot.name
      · subst hn
        rw [dget_dinsert_self] at hr'
        refine ⟨?_, ?_⟩
        · rw [← Option.some.inj hr']
          exact hrid
        · rw [dget_dinsert_self]
          rfl
      · rw [dget_dinsert_ne _ _ _ _ hn] at hr'
        obtain ⟨h1, h2⟩ := hact name rid hr'
        refine ⟨h1, ?_⟩
        rw [dget_dinsert_ne _ _ _ _ hn]
        exact h2
  | update ok snapshot d np nf st hr ih =>
    obtain ⟨hnd, hcoh, hact⟩ := ih
    rw [updateStep_state]
    refine ⟨keys_nodup_dpop _ _ hnd, hcoh, ?_⟩
    intro name rid hr'
    by_cases hn : name = snapshot.name
    · subst hn
      rw [dget_dpop_self _ _ hnd] at hr'
      cases hr'
    · rw [dget_dpop_ne _ _ _ hn] at hr'
      exact hact name rid hr'
  | @stop s' ok success hr ih =>
    cases hres : (stopStep ns ok s' success).raised with
    | true =>
      rw [stopStep_state_raised ns ok s' success hres]
      exact ih
    | false =>
      rw [stopStep_state_done ns ok s' success hres]
      refine ⟨List.nodup_nil, ?_, ?_⟩
      · intro name snapshot h
        cases h
      · intro name rid h
        cases h

theorem stopSweep_allOk_no_raise (ns : String) (snaps : List (String × Snapshot))
    (success : Bool) (active : List (String × String)) :
    (stopSweep ns allOk snaps success active).2 = false := by
  induction active with
  | nil => rfl
  | cons p rest ih =>
    obtain ⟨nm, rid⟩ := p
    cases hs : dget snaps nm with
    | none => simpa [stopSweep, hs] using ih
    | some snapshot =>
      by_cases hrid : rid = ""
      · simpa [stopSweep, hs, hrid] using ih
      · simpa [stopSweep, hs, hrid, allOk] using ih

theorem stopStep_events_allOk (ns : String) (s : ConsoleState) (success : Bool) :
    (stopStep ns allOk s success).events =
      (stopSweep ns allOk s.current_snapshots success s.active_runs).1 := by
  unfold stopStep
  simp [stopSweep_allOk_no_raise]

theorem mem_stopSweep (ns : String) (snaps : List (String × Snapshot)) (success : Bool)
    (name rid : String) (snapshot : Snapshot)
    (hs : dget snaps name = some snapshot) (hrid : rid ≠ "") :
    ∀ active : List (String × String), (name, rid) ∈ active →
      emit_snapshot_fail_event ns snapshot rid
        (if success then "Unknown error" else "Evaluation interrupted")
        ∈ (stopSweep ns allOk snaps success active).1 := by
  intro active
  induction active with
  | nil => intro hmem; simp at hmem
  | cons p rest ih =>
    intro hmem
    obtain ⟨nm, rd⟩ := p
    rcases List.mem_cons.mp hmem with he | he
    · have h1 : nm = name := (congrArg Prod.fst he).symm
      have h2 : rd = rid := (congrArg Prod.snd he).symm
      subst h1
      subst h2
      rw [show (stopSweep ns allOk snaps success ((nm, rd) :: rest)).1 =
          emit_snapshot_fail_event ns snapshot rd
            (if success then "Unknown error" else "Evaluation interrupted") ::
            (stopSweep ns allOk snaps success rest).1 from by
        simp [stopSweep, hs, hrid, allOk]]
      exact List.mem_cons_self _ _
    · cases hsnm : dget snaps nm with
      | none =>
        rw [show (stopSweep ns allOk snaps success ((nm, rd) :: rest)).1 =
            (stopSweep ns allOk snaps success rest).1 from by
          simp [stopSweep, hsnm]]
        exact ih he
      | some snapshot' =>
        by_cases hrd : rd = ""
        · rw [show (stopSweep ns allOk snaps success ((nm, rd) :: rest)).1 =
              (stopSweep ns allOk snaps success rest).1 from by
            simp [stopSweep, hsnm, hrd]]
          exact ih he
        · rw [show (stopSweep ns allOk snaps success ((nm, rd) :: rest)).1 =
              emit_snapshot_fail_event ns snapshot' rd
                (if success then "Unknown error" else "Evaluation interrupted") ::
                (stopSweep ns allOk snaps success rest).1 from by
            simp [stopSweep, hsnm, hrd, allOk]]
          exact List.mem_cons_of_mem _ (ih he)

/-- C4, counterexample: stopping with `success = true` over one active
run emits a FAIL whose message is `Unknown error`, not the claimed
`unknown error`. -/
theorem c4_counterexample :
    ((stopStep "sqlmesh" allOk oneActive true).events.map
      (fun ev => (ev.errorMessage.map (fun m => m.message)).getD "")) = ["Unknown error"] ∧
    ("Unknown error" : String) ≠ "unknown error" :=
  ⟨rfl, by decide⟩

/-- C4 (amended): in every reachable state, stopping the phase emits for
every still active snapshot name a FAIL event whose message contains
`interrupted` when `success` is false, and is `Unknown error`
(capitalised) when `success` is true. -/
theorem c4_stop_sweep_fail (ns : String) (s : ConsoleState) (success : Bool)
    (hreach : Reachable ns s) (name run_id : String)
    (hact : dget s.active_runs name = some run_id) :
    ∃ ev ∈ (stopStep ns allOk s success).events,
      ev.eventType = RunState.FAIL ∧ ev.jobName = name ∧ ev.runId = run_id ∧
      ev.errorMessage = some
        { message := (if success then "Unknown error" else "Evaluation interrupted"),
          programmingLanguage := "python" } ∧
      (success = false → ∃ pre post,
        (if success then "Unknown error" else "Evaluation interrupted") =
          pre ++ "interrupted" ++ post) := by
  obtain ⟨hnd, hcoh, hactiv⟩ := reachable_wf ns s hreach
  obtain ⟨hrid, hsome⟩ := hactiv name run_id hact
  obtain ⟨snapshot, hsnap⟩ := Option.isSome_iff_exists.mp hsome
  have hname : snapshot.name = name := hcoh name snapshot hsnap
  refine ⟨emit_snapshot_fail_event ns snapshot run_id
    (if success then "Unknown error" else "Evaluation interrupted"), ?_, rfl, ?_, rfl, rfl, ?_⟩
  · rw [stopStep_events_allOk]
    exact mem_stopSweep ns s.current_snapshots success name run_id snapshot hsnap hrid
      s.active_runs (dget_some_mem hact)
  · exact hname
  · intro hsuc
    subst hsuc
    exact ⟨"Evaluation ", "", rfl⟩

/-- C4, witness: the reachable state with one started run, stopped with
`success = false`, gets its FAIL event with `interrupted` in the
message. -/
theorem c4_stop_sweep_fail_witness :
    ∃ ev ∈ (stopStep "sqlmesh" allOk
        (startSnapStep "sqlmesh" allOk initState snapA "r1").state false).events,
      ev.eventType = RunState.FAIL ∧ ev.jobName = "a" ∧ ev.runId = "r1" ∧
      ev.errorMessage = some
        { message := (if false then "Unknown error" else "Evaluation interrupted"),
          programmingLanguage := "python" } ∧
      (false = false → ∃ pre post,
        (if false then "Unknown error" else "Evaluation interrupted") =
          pre ++ "interrupted" ++ post) :=
  c4_stop_sweep_fail "sqlmesh" _ false
    (Reachable.startSnap allOk snapA Reachable.init (by decide)) "a" "r1" rfl

/-! ## Claim C1: counting lemmas and step facts -/

theorem dget_of_mem_nodup {α : Type} {l : List (String × α)}
    (hnd : (l.map Prod.fst).Nodup) {k : String} {v : α} (hm : (k, v) ∈ l) :
    dget l k = some v := by
  induction l with
  | nil => simp at hm
  | cons p rest ih =>
    obtain ⟨k', v'⟩ := p
    rw [List.map_cons, List.nodup_cons] at hnd
    rcases List.mem_cons.mp hm with he | he
    · have h1 : k' = k := (congrArg Prod.fst he).symm
      have h2 : v' = v := (congrArg Prod.snd he).symm
      subst h1
      subst h2
      simp [dget]
    · have hk : k' ≠ k := by
        intro hkk
        subst hkk
        exact hnd.1 (by simpa using List.mem_map_of_mem Prod.fst he)
      simp [dget, hk]
      exact ih hnd.2 he

theorem terminalCount_nil (r : String) : terminalCount [] r = 0 := rfl

theorem terminalCount_append (a b : List Event) (r : String) :
    terminalCount (a ++ b) r = terminalCount a r + terminalCount b r := by
  simp [terminalCount, List.filter_append]

theorem isTerminal_start (ns : String) (snapshot : Snapshot) (rid : String) :
    isTerminal (emit_snapshot_start_event ns snapshot rid) = false := rfl

theorem isTerminal_fail (ns : String) (snapshot : Snapshot) (rid error : String) :
    isTerminal (emit_snapshot_fail_event ns snapshot rid error) = true := rfl

theorem isTerminal_complete (ns : String) (snapshot : Snapshot) (rid : String)
    (d : Option Int) (st : Option QueryExecutionStats) :
    isTerminal (emit_snapshot_complete_event ns snapshot rid d st) = true := rfl

theorem terminalCount_cons_not_terminal (ev : Event) (evs : List Event) (r : String)
    (h : isTerminal ev = false) :
    terminalCount (ev :: evs) r = terminalCount evs r := by
  simp [terminalCount, List.filter_cons, h]

theorem terminalCount_cons_terminal (ev : Event) (evs : List Event) (r : String)
    (h : isTerminal ev = true) :
    terminalCount (ev :: evs) r =
      (if ev.runId = r then 1 else 0) + terminalCount evs r := by
  by_cases hr : ev.runId = r
  · simp [terminalCount, List.filter_cons, h, hr, Nat.add_comm]
  · simp [terminalCount, List.filter_cons, h, hr]

theorem terminalCount_pos_exists (evs : List Event) (r : String)
    (h : terminalCount evs r ≠ 0) :
    ∃ ev ∈ evs, isTerminal ev = true ∧ ev.runId = r := by
  induction evs with
  | nil => exact absurd rfl h
  | cons ev rest ih =>
    by_cases ht : isTerminal ev = true
    · by_cases hr : ev.runId = r
      · exact ⟨ev, List.mem_cons_self _ _, ht, hr⟩
      · rw [terminalCount_cons_terminal ev rest r ht, if_neg hr] at h
        obtain ⟨ev', hm, h1, h2⟩ := ih (by simpa using h)
        exact ⟨ev', List.mem_cons_of_mem _ hm, h1, h2⟩
    · rw [terminalCount_cons_not_terminal ev rest r (by simpa using ht)] at h
      obtain ⟨ev', hm, h1, h2⟩ := ih h
      exact ⟨ev', List.mem_cons_of_mem _ hm, h1, h2⟩

theorem step_allOk_no_raise (ns : String) (s : ConsoleState) (op : Op) :
    (step ns allOk s op).raised = false := by
  cases op with
  | startEval snapshots => rfl
  | startSnap snapshot run_id => simp [step, startSnapStep, allOk]
  | update snapshot d np nf st =>
    simp only [step]
    unfold updateStep
    cases h : dget s.active_runs snapshot.name with
    | none => simp
    | some rid =>
      by_cases hrid : rid = ""
      · simp [hrid]
      · simp only [hrid, if_false]
        split <;> simp [allOk]
  | stop success =>
    simp only [step]
    unfold stopStep
    simp [stopSweep_allOk_no_raise]

theorem runTrace_allOk_cons (ns : String) (s : ConsoleState) (op : Op) (rest : List Op) :
    runTrace ns allOk s (op :: rest) =
      ((runTrace ns allOk (step ns allOk s op).state rest).1,
        (step ns allOk s op).events ++
          (runTrace ns allOk (step ns allOk s op).state rest).2) := by
  simp only [runTrace]
  simp [step_allOk_no_raise]

theorem startedRuns_append (l₁ l₂ : List Op) :
    startedRuns (l₁ ++ l₂) = startedRuns l₁ ++ startedRuns l₂ := by
  induction l₁ with
  | nil => rfl
  | cons op rest ih =>
    cases op <;> simp [startedRuns, ih]

theorem updateStep_events_none (ns : String) (ok : EmitOk) (s : ConsoleState)
    (snapshot : Snapshot) (d : Option Int) (np nf : Nat)
    (st : Option QueryExecutionStats)
    (h : dget s.active_runs snapshot.name = none) :
    (updateStep ns ok s snapshot d np nf st).events = [] := by
  unfold updateStep
  simp [h]

theorem updateStep_events_some (ns : String) (s : ConsoleState)
    (snapshot : Snapshot) (d : Option Int) (np nf : Nat)
    (st : Option QueryExecutionStats) (rid : String)
    (h : dget s.active_runs snapshot.name = some rid) (hrid : rid ≠ "") :
    ∃ ev, (updateStep ns allOk s snapshot d np nf st).events = [ev] ∧
      ev.runId = rid ∧ isTerminal ev = true := by
  by_cases hnf : nf > 0
  · refine ⟨emit_snapshot_fail_event ns snapshot rid
      ("Audit failed: " ++ toString nf ++ " audit(s) failed"), ?_, rfl, rfl⟩
    simp [updateStep, h, hrid, hnf, allOk]
  · refine ⟨emit_snapshot_complete_event ns snapshot rid d st, ?_, rfl, rfl⟩
    simp [updateStep, h, hrid, hnf, allOk]

theorem stopSweep_count_zero (ns : String) (snaps : List (String × Snapshot))
    (success : Bool) :
    ∀ (active : List (String × String)),
      (∀ p ∈ active, p.2 ≠ "" ∧ (dget snaps p.1).isSome) →
      ((active.map Prod.fst).Nodup) →
      ∀ r : String, (∀ n, dget active n ≠ some r) →
      terminalCount (stopSweep ns allOk snaps success active).1 r = 0 := by
  intro active
  induction active with
  | nil =>
    intro _ _ r _
    rfl
  | cons p rest ih =>
    intro hq hnd r hnone
    obtain ⟨nm, rid⟩ := p
    obtain ⟨hrid, hsome⟩ := hq (nm, rid) (List.mem_cons_self _ _)
    obtain ⟨snapshot, hs⟩ := Option.isSome_iff_exists.mp hsome
    rw [List.map_cons, List.nodup_cons] at hnd
    have hvr : rid ≠ r := by
      intro he
      subst he
      exact hnone nm (by simp [dget])
    rw [show (stopSweep ns allOk snaps success ((nm, rid) :: rest)).1 =
        emit_snapshot_fail_event ns snapshot rid
          (if success then "Unknown error" else "Evaluation interrupted") ::
          (stopSweep ns allOk snaps success rest).1 from by
      simp [stopSweep, hs, hrid, allOk]]
    rw [terminalCount_cons_terminal _ _ _ (isTerminal_fail ns snapshot rid _)]
    rw [show (emit_snapshot_fail_event ns snapshot rid
      (if success then "Unknown error" else "Evaluation interrupted")).runId = rid from rfl]
    rw [if_neg hvr]
    simp only [Nat.zero_add]
    apply ih (fun p hp => hq p (List.mem_cons_of_mem _ hp)) hnd.2 r
    intro n hn
    have hnk : n ∈ rest.map Prod.fst := by
      have := dget_some_mem hn
      exact List.mem_map_of_mem Prod.fst this
    have hnnm : nm ≠ n := by
      intro he
      subst he
      exact hnd.1 hnk
    apply hnone n
    rw [dget_cons, if_neg hnnm]
    exact hn

theorem stopSweep_count_one (ns : String) (snaps : List (String × Snapshot))
    (success : Bool) :
    ∀ (active : List (String × String)),
      (∀ p ∈ active, p.2 ≠ "" ∧ (dget snaps p.1).isSome) →
      ((active.map Prod.fst).Nodup) →
      ∀ (n r : String),
      (∀ n₁ n₂, dget active n₁ = some r → dget active n₂ = some r → n₁ = n₂) →
      dget active n = some r →
      terminalCount (stopSweep ns allOk snaps success active).1 r = 1 := by
  intro active
  induction active with
  | nil =>
    intro _ _ n r _ hmem
    cases hmem
  | cons p rest ih =>
    intro hq hnd n r hinj hmem
    obtain ⟨nm, rid⟩ := p
    obtain ⟨hrid, hsome⟩ := hq (nm, rid) (List.mem_cons_self _ _)
    obtain ⟨snapshot, hs⟩ := Option.isSome_iff_exists.mp hsome
    rw [List.map_cons, List.nodup_cons] at hnd
    rw [show (stopSweep ns allOk snaps success ((nm, rid) :: rest)).1 =
        emit_snapshot_fail_event ns snapshot rid
          (if success then "Unknown error" else "Evaluation interrupted") ::
          (stopSweep ns allOk snaps success rest).1 from by
      simp [stopSweep, hs, hrid, allOk]]
    rw [terminalCount_cons_terminal _ _ _ (isTerminal_fail ns snapshot rid _)]
    rw [show (emit_snapshot_fail_event ns snapshot rid
      (if success then "Unknown error" else "Evaluation interrupted")).runId = rid from rfl]
    by_cases hh : nm = n
    · subst hh
      rw [dget_cons, if_pos rfl] at hmem
      have hvr : rid = r := Option.some.inj hmem
      subst hvr
      rw [if_pos rfl]
      have hzero : terminalCount (stopSweep ns allOk snaps success rest).1 rid = 0 := by
        apply stopSweep_count_zero ns snaps success rest
          (fun p hp => hq p (List.mem_cons_of_mem _ hp)) hnd.2
        intro n' hn'
        have hnk : n' ∈ rest.map Prod.fst :=
          List.mem_map_of_mem Prod.fst (dget_some_mem hn')
        have hne : nm ≠ n' := by
          intro he
          subst he
          exact hnd.1 hnk
        have : dget ((nm, rid) :: rest) n' = some rid := by
          rw [dget_cons, if_neg hne]
          exact hn'
        exact hne (hinj nm n' (by simp [dget]) this)
      rw [hzero]
    · rw [dget_cons, if_neg hh] at hmem
      have hvr : rid ≠ r := by
        intro he
        subst he
        apply hh
        apply hinj nm n (by simp [dget])
        rw [dget_cons, if_neg hh]
        exact hmem
      rw [if_neg hvr]
      simp only [Nat.zero_add]
      apply ih (fun p hp => hq p (List.mem_cons_of_mem _ hp)) hnd.2 n r
      · intro n₁ n₂ h₁ h₂
        have k₁ : n₁ ∈ rest.map Prod.fst :=
          List.mem_map_of_mem Prod.fst (dget_some_mem h₁)
        have k₂ : n₂ ∈ rest.map Prod.fst :=
          List.mem_map_of_mem Prod.fst (dget_some_mem h₂)
        have hne₁ : nm ≠ n₁ := fun he => hnd.1 (he ▸ k₁)
        have hne₂ : nm ≠ n₂ := fun he => hnd.1 (he ▸ k₂)
        apply hinj n₁ n₂
        · rw [dget_cons, if_neg hne₁]
          exact h₁
        · rw [dget_cons, if_neg hne₂]
          exact h₂
      · exact hmem

theorem stopSweep_runIds (ns : String) (snaps : List (String × Snapshot))
    (success : Bool) :
    ∀ (active : List (String × String)),
      ∀ ev ∈ (stopSweep ns allOk snaps success active).1,
        ev.runId ∈ active.map Prod.snd := by
  intro active
  induction active with
  | nil =>
    intro ev hev
    cases hev
  | cons p rest ih =>
    intro ev hev
    obtain ⟨nm, rid⟩ := p
    cases hs : dget snaps nm with
    | none =>
      rw [show (stopSweep ns allOk snaps success ((nm, rid) :: rest)).1 =
          (stopSweep ns allOk snaps success rest).1 from by
        simp [stopSweep, hs]] at hev
      exact List.mem_cons_of_mem _ (ih ev hev)
    | some snapshot =>
      by_cases hrid : rid = ""
      · rw [show (stopSweep ns allOk snaps success ((nm, rid) :: rest)).1 =
            (stopSweep ns allOk snaps success rest).1 from by
          simp [stopSweep, hs, hrid]] at hev
        exact List.mem_cons_of_mem _ (ih ev hev)
      · rw [show (stopSweep ns allOk snaps success ((nm, rid) :: rest)).1 =
            emit_snapshot_fail_event ns snapshot rid
              (if success then "Unknown error" else "Evaluation interrupted") ::
              (stopSweep ns allOk snaps success rest).1 from by
          simp [stopSweep, hs, hrid, allOk]] at hev
        rcases List.mem_cons.mp hev with he | he
        · subst he
          exact List.mem_cons_self _ _
        · exact List.mem_cons_of_mem _ (ih ev he)

theorem stopStep_allOk_no_raise (ns : String) (s : ConsoleState) (success : Bool) :
    (stopStep ns allOk s success).raised = false := by
  unfold stopStep
  simp [stopSweep_allOk_no_raise]

theorem runTrace_allOk_append (ns : String) (l₁ l₂ : List Op) :
    ∀ s : ConsoleState,
      (runTrace ns allOk s (l₁ ++ l₂)).1 =
        (runTrace ns allOk (runTrace ns allOk s l₁).1 l₂).1 ∧
      (runTrace ns allOk s (l₁ ++ l₂)).2 =
        (runTrace ns allOk s l₁).2 ++
          (runTrace ns allOk (runTrace ns allOk s l₁).1 l₂).2 := by
  induction l₁ with
  | nil => intro s; simp [runTrace]
  | cons op rest ih =>
    intro s
    rw [List.cons_append, runTrace_allOk_cons, runTrace_allOk_cons]
    obtain ⟨h1, h2⟩ := ih (step ns allOk s op).state
    exact ⟨h1, by simp [h2]⟩

theorem runTrace_stop_final (ns : String) (s : ConsoleState) (success : Bool) :
    (runTrace ns allOk s [Op.stop success]).1 = initState := by
  rw [runTrace_allOk_cons]
  show (runTrace ns allOk (stopStep ns allOk s success).state []).1 = initState
  rw [show (runTrace ns allOk (stopStep ns allOk s success).state []).1 =
    (stopStep ns allOk s success).state from rfl]
  exact stopStep_state_done ns allOk s success (stopStep_allOk_no_raise ns s success)

theorem terminalCount_singleton_terminal (ev : Event) (r : String)
    (h : isTerminal ev = true) :
    terminalCount [ev] r = if ev.runId = r then 1 else 0 := by
  rw [terminalCount_cons_terminal ev [] r h, terminalCount_nil]
  omega

theorem traceInv_startEval (st : List (String × String)) (s : ConsoleState)
    (evs : List Event) (snapshots : List Snapshot) (h : TraceInv st s evs) :
    TraceInv st (startEvalStep s snapshots) evs := by
  refine ⟨h.nodupKeys, h.ridsNodup, h.ridsNe, ?_, h.activeInj, h.started, h.termOnly⟩
  intro name rid hr
  obtain ⟨h1, h2, h3⟩ := h.activeOk name rid hr
  exact ⟨h1, dget_foldl_dinsert_isSome _ _ _ h2, h3⟩

theorem traceInv_update (ns : String) (st : List (String × String)) (s : ConsoleState)
    (evs : List Event) (snapshot : Snapshot) (d : Option Int) (np nf : Nat)
    (stats : Option QueryExecutionStats) (h : TraceInv st s evs) :
    TraceInv st (updateStep ns allOk s snapshot d np nf stats).state
      (evs ++ (updateStep ns allOk s snapshot d np nf stats).events) := by
  cases hrun : dget s.active_runs snapshot.name with
  | none =>
    rw [updateStep_state, updateStep_events_none ns allOk s snapshot d np nf stats hrun,
      dpop_of_not_mem _ _ hrun]
    simpa using h
  | some rid =>
    obtain ⟨hrid, hsome, hmemst⟩ := h.activeOk snapshot.name rid hrun
    obtain ⟨ev, hev, hrunid, hterm⟩ :=
      updateStep_events_some ns s snapshot d np nf stats rid hrun hrid
    rw [updateStep_state, hev]
    refine ⟨keys_nodup_dpop _ _ h.nodupKeys, h.ridsNodup, h.ridsNe, ?_, ?_, ?_, ?_⟩
    · intro name rid' hr
      by_cases hn : name = snapshot.name
      · subst hn
        rw [dget_dpop_self _ _ h.nodupKeys] at hr
        cases hr
      · rw [dget_dpop_ne _ _ _ hn] at hr
        exact h.activeOk name rid' hr
    · intro n₁ n₂ r h₁ h₂
      have g₁ : dget s.active_runs n₁ = some r := by
        by_cases hn : n₁ = snapshot.name
        · subst hn
          rw [dget_dpop_self _ _ h.nodupKeys] at h₁
          cases h₁
        · rw [dget_dpop_ne _ _ _ hn] at h₁
          exact h₁
      have g₂ : dget s.active_runs n₂ = some r := by
        by_cases hn : n₂ = snapshot.name
        · subst hn
          rw [dget_dpop_self _ _ h.nodupKeys] at h₂
          cases h₂
        · rw [dget_dpop_ne _ _ _ hn] at h₂
          exact h₂
      exact h.activeInj n₁ n₂ r g₁ g₂
    · intro p hp
      rcases h.started p hp with ⟨ha, hc⟩ | ⟨ha, hc⟩
      · by_cases hpr : p.2 = rid
        · have hp1 : p.1 = snapshot.name :=
            h.activeInj p.1 snapshot.name rid (hpr ▸ ha) hrun
          right
          constructor
          · intro n hn
            by_cases hn2 : n = snapshot.name
            · subst hn2
              rw [dget_dpop_self _ _ h.nodupKeys] at hn
              cases hn
            · rw [dget_dpop_ne _ _ _ hn2] at hn
              exact hn2 (h.activeInj n snapshot.name rid (hpr ▸ hn) hrun)
          · rw [terminalCount_append, hc, terminalCount_singleton_terminal ev p.2 hterm,
              hrunid, if_pos hpr.symm]
        · left
          have hp1ne : p.1 ≠ snapshot.name := by
            intro he
            rw [he, hrun] at ha
            exact hpr (Option.some.inj ha).symm
          constructor
          · rw [dget_dpop_ne _ _ _ hp1ne]
            exact ha
          · rw [terminalCount_append, hc, terminalCount_singleton_terminal ev p.2 hterm,
              hrunid, if_neg (fun he => hpr he.symm)]
      · right
        constructor
        · intro n hn
          by_cases hn2 : n = snapshot.name
          · subst hn2
            rw [dget_dpop_self _ _ h.nodupKeys] at hn
            cases hn
          · rw [dget_dpop_ne _ _ _ hn2] at hn
            exact ha n hn
        · have hner : rid ≠ p.2 := by
            intro he
            exact ha snapshot.name (he ▸ hrun)
          rw [terminalCount_append, hc, terminalCount_singleton_terminal ev p.2 hterm,
            hrunid, if_neg hner]
    · intro ev' hev' hterm'
      rcases List.mem_append.mp hev' with hm | hm
      · exact h.termOnly ev' hm hterm'
      · have he : ev' = ev := by simpa using hm
        subst he
        rw [hrunid]
        exact List.mem_map_of_mem Prod.snd hmemst

theorem traceInv_startSnap (ns : String) (st : List (String × String)) (s : ConsoleState)
    (evs : List Event) (snapshot : Snapshot) (run_id : String)
    (h : TraceInv st s evs) (hrid : run_id ≠ "")
    (hfresh : run_id ∉ st.map Prod.snd)
    (hinact : dget s.active_runs snapshot.name = none) :
    TraceInv (st ++ [(snapshot.name, run_id)])
      (startSnapStep ns allOk s snapshot run_id).state
      (evs ++ (startSnapStep ns allOk s snapshot run_id).events) := by
  have hevents : (startSnapStep ns allOk s snapshot run_id).events =
      [emit_snapshot_start_event ns snapshot run_id] := by
    simp [startSnapStep, allOk]
  rw [startSnapStep_state, hevents]
  refine ⟨keys_nodup_dinsert _ _ _ h.nodupKeys, ?_, ?_, ?_, ?_, ?_, ?_⟩
  · rw [List.map_append]
    refine List.Nodup.append h.ridsNodup (by simp) ?_
    intro a ha hb
    simp at hb
    subst hb
    exact hfresh ha
  · intro p hp
    rcases List.mem_append.mp hp with hm | hm
    · exact h.ridsNe p hm
    · have : p = (snapshot.name, run_id) := by simpa using hm
      subst this
      exact hrid
  · intro name rid' hr
    by_cases hn : name = snapshot.name
    · subst hn
      rw [dget_dinsert_self] at hr
      have he : rid' = run_id := (Option.some.inj hr).symm
      subst he
      refine ⟨hrid, ?_, ?_⟩
      · rw [dget_dinsert_self]
        rfl
      · exact List.mem_append_right _ (by simp)
    · rw [dget_dinsert_ne _ _ _ _ hn] at hr
      obtain ⟨a, b, c⟩ := h.activeOk name rid' hr
      refine ⟨a, ?_, List.mem_append_left _ c⟩
      rw [dget_dinsert_ne _ _ _ _ hn]
      exact b
  · intro n₁ n₂ r h₁ h₂
    by_cases e₁ : n₁ = snapshot.name
    · by_cases e₂ : n₂ = snapshot.name
      · rw [e₁, e₂]
      · subst e₁
        rw [dget_dinsert_self] at h₁
        rw [dget_dinsert_ne _ _ _ _ e₂] at h₂
        obtain ⟨_, _, hmem⟩ := h.activeOk n₂ r h₂
        have : r ∈ st.map Prod.snd := List.mem_map_of_mem Prod.snd hmem
        rw [← Option.some.inj h₁] at this
        exact absurd this hfresh
    · by_cases e₂ : n₂ = snapshot.name
      · subst e₂
        rw [dget_dinsert_self] at h₂
        rw [dget_dinsert_ne _ _ _ _ e₁] at h₁
        obtain ⟨_, _, hmem⟩ := h.activeOk n₁ r h₁
        have : r ∈ st.map Prod.snd := List.mem_map_of_mem Prod.snd hmem
        rw [← Option.some.inj h₂] at this
        exact absurd this hfresh
      · rw [dget_dinsert_ne _ _ _ _ e₁] at h₁
        rw [dget_dinsert_ne _ _ _ _ e₂] at h₂
        exact h.activeInj n₁ n₂ r h₁ h₂
  · intro p hp
    rcases List.mem_append.mp hp with hm | hm
    · rcases h.started p hm with ⟨ha, hc⟩ | ⟨ha, hc⟩
      · left
        have hne : p.1 ≠ snapshot.name := by
          intro he
          rw [he, hinact] at ha
          cases ha
        constructor
        · rw [dget_dinsert_ne _ _ _ _ hne]
          exact ha
        · rw [terminalCount_append, hc,
            terminalCount_cons_not_terminal _ _ _ (isTerminal_start ns snapshot run_id),
            terminalCount_nil]
      · right
        constructor
        · intro n hn
          by_cases hn2 : n = snapshot.name
          · subst hn2
            rw [dget_dinsert_self] at hn
            have he : run_id = p.2 := Option.some.inj hn
            apply hfresh
            rw [he]
            exact List.mem_map_of_mem Prod.snd hm
          · rw [dget_dinsert_ne _ _ _ _ hn2] at hn
            exact ha n hn
        · rw [terminalCount_append, hc,
            terminalCount_cons_not_terminal _ _ _ (isTerminal_start ns snapshot run_id),
            terminalCount_nil]
    · have hpe : p = (snapshot.name, run_id) := by simpa using hm
      subst hpe
      left
      constructor
      · rw [dget_dinsert_self]
      · rw [terminalCount_append,
          terminalCount_cons_not_terminal _ _ _ (isTerminal_start ns snapshot run_id),
          terminalCount_nil]
        by_cases hz : terminalCount evs run_id = 0
        · rw [hz]
        · obtain ⟨ev', hm', ht', hr'⟩ := terminalCount_pos_exists evs run_id hz
          have : run_id ∈ st.map Prod.snd := hr' ▸ h.termOnly ev' hm' ht'
          exact absurd this hfresh
  · intro ev hev ht
    rcases List.mem_append.mp hev with hm | hm
    · rw [List.map_append]
      exact List.mem_append_left _ (h.termOnly ev hm ht)
    · have he : ev = emit_snapshot_start_event ns snapshot run_id := by simpa using hm
      subst he
      rw [isTerminal_start] at ht
      cases ht

theorem traceInv_stop (ns : String) (st : List (String × String)) (s : ConsoleState)
    (evs : List Event) (success : Bool) (h : TraceInv st s evs) :
    TraceInv st (stopStep ns allOk s success).state
      (evs ++ (stopStep ns allOk s success).events) := by
  have hstate : (stopStep ns allOk s success).state = initState :=
    stopStep_state_done ns allOk s success (stopStep_allOk_no_raise ns s success)
  rw [hstate, stopStep_events_allOk]
  have hq : ∀ p ∈ s.active_runs, p.2 ≠ "" ∧ (dget s.current_snapshots p.1).isSome := by
    intro p hp
    obtain ⟨pn, pr⟩ := p
    have hd := dget_of_mem_nodup h.nodupKeys hp
    obtain ⟨a, b, _⟩ := h.activeOk pn pr hd
    exact ⟨a, b⟩
  refine ⟨List.nodup_nil, h.ridsNodup, h.ridsNe, ?_, ?_, ?_, ?_⟩
  · intro name rid hr
    simp [initState, dget] at hr
  · intro n₁ n₂ r h₁ h₂
    simp [initState, dget] at h₁
  · intro p hp
    right
    constructor
    · intro n hn
      simp [initState, dget] at hn
    · rw [terminalCount_append]
      rcases h.started p hp with ⟨ha, hc⟩ | ⟨ha, hc⟩
      · rw [hc]
        simp only [Nat.zero_add]
        exact stopSweep_count_one ns s.current_snapshots success s.active_runs hq
          h.nodupKeys p.1 p.2 (fun n₁ n₂ a b => h.activeInj n₁ n₂ p.2 a b) ha
      · rw [hc,
          stopSweep_count_zero ns s.current_snapshots success s.active_runs hq
            h.nodupKeys p.2 ha]
  · intro ev hev ht
    rcases List.mem_append.mp hev with hm | hm
    · exact h.termOnly ev hm ht
    · have hrid : ev.runId ∈ s.active_runs.map Prod.snd :=
        stopSweep_runIds ns s.current_snapshots success s.active_runs ev hm
      obtain ⟨p, hp, hpe⟩ := List.mem_map.mp hrid
      obtain ⟨pn, pr⟩ := p
      have hd := dget_of_mem_nodup h.nodupKeys hp
      obtain ⟨_, _, hmem⟩ := h.activeOk pn pr hd
      rw [← hpe]
      exact List.mem_map_of_mem Prod.snd hmem

theorem traceInv_run (ns : String) :
    ∀ (ops : List Op) (used : List String) (st : List (String × String))
      (s : ConsoleState) (evs : List Event),
      validFrom ns used s ops = true →
      (∀ r ∈ st.map Prod.snd, r ∈ used) →
      TraceInv st s evs →
      TraceInv (st ++ startedRuns ops) (runTrace ns allOk s ops).1
        (evs ++ (runTrace ns allOk s ops).2) := by
  intro ops
  induction ops with
  | nil =>
    intro used st s evs _ _ hinv
    simpa [runTrace, startedRuns] using hinv
  | cons op rest ih =>
    intro used st s evs hv hused hinv
    rw [runTrace_allOk_cons]
    cases op with
    | startEval snapshots =>
      have hv' : validFrom ns used (startEvalStep s snapshots) rest = true := by
        simpa [validFrom, step] using hv
      have hres := ih used st (startEvalStep s snapshots) evs hv' hused
        (traceInv_startEval st s evs snapshots hinv)
      simpa [step, startedRuns] using hres
    | startSnap snapshot run_id =>
      simp only [validFrom, Bool.and_eq_true, decide_eq_true_eq] at hv
      obtain ⟨⟨⟨h1, h2⟩, h3⟩, h4⟩ := hv
      have hfresh : run_id ∉ st.map Prod.snd := fun hmem => h2 (hused run_id hmem)
      have hinv' := traceInv_startSnap ns st s evs snapshot run_id hinv h1 hfresh h3
      have hused' : ∀ r ∈ (st ++ [(snapshot.name, run_id)]).map Prod.snd,
          r ∈ run_id :: used := by
        intro r hr
        rw [List.map_append] at hr
        rcases List.mem_append.mp hr with hm | hm
        · exact List.mem_cons_of_mem _ (hused r hm)
        · simp at hm
          subst hm
          exact List.mem_cons_self _ _
      have hres := ih (run_id :: used) (st ++ [(snapshot.name, run_id)])
        (startSnapStep ns allOk s snapshot run_id).state
        (evs ++ (startSnapStep ns allOk s snapshot run_id).events) h4 hused' hinv'
      simpa [step, startedRuns, List.append_assoc] using hres
    | update snapshot d np nf stats =>
      have hv' : validFrom ns used
          (updateStep ns allOk s snapshot d np nf stats).state rest = true := by
        simpa [validFrom, step] using hv
      have hres := ih used st (updateStep ns allOk s snapshot d np nf stats).state
        (evs ++ (updateStep ns allOk s snapshot d np nf stats).events) hv' hused
        (traceInv_update ns st s evs snapshot d np nf stats hinv)
      simpa [step, startedRuns, List.append_assoc] using hres
    | stop success =>
      have hv' : validFrom ns used (stopStep ns allOk s success).state rest = true := by
        simpa [validFrom, step] using hv
      have hres := ih used st (stopStep ns allOk s success).state
        (evs ++ (stopStep ns allOk s success).events) hv' hused
        (traceInv_stop ns st s evs success hinv)
      simpa [step, startedRuns, List.append_assoc] using hres

theorem validFrom_append_stop (ns : String) (success : Bool) :
    ∀ (ops : List Op) (used : List String) (s : ConsoleState),
      validFrom ns used s ops = true →
      validFrom ns used s (ops ++ [Op.stop success]) = true := by
  intro ops
  induction ops with
  | nil =>
    intro used s _
    simp [validFrom]
  | cons op rest ih =>
    intro used s hv
    cases op with
    | startSnap snapshot run_id =>
      simp only [List.cons_append, validFrom, Bool.and_eq_true] at hv ⊢
      exact ⟨hv.1, ih _ _ hv.2⟩
    | startEval snapshots =>
      simp only [List.cons_append, validFrom] at hv ⊢
      exact ih _ _ hv
    | update snapshot d np nf stats =>
      simp only [List.cons_append, validFrom] at hv ⊢
      exact ih _ _ hv
    | stop b =>
      simp only [List.cons_append, validFrom] at hv ⊢
      exact ih _ _ hv

/-- C1, counterexample: a phase in which snapshot `e` is started twice
before the stop (the orchestrator ordering is respected: phase start,
then entity starts, then phase stop) leaves the first generated run id
with zero terminal events - the second start silently discards it. -/
theorem c1_counterexample :
    ("e", "r1") ∈ startedRuns [Op.startEval [snapE], Op.startSnap snapE "r1",
      Op.startSnap snapE "r2", Op.stop true] ∧
    terminalCount (runTrace "sqlmesh" allOk initState
      [Op.startEval [snapE], Op.startSnap snapE "r1", Op.startSnap snapE "r2",
        Op.stop true]).2 "r1" = 0 :=
  ⟨by decide, rfl⟩

/-- C1 (amended): for every lifecycle trace respecting the orchestrator
ordering in which, additionally, run ids are fresh and non-empty and no
snapshot is started while it still has an active run, every started run
id receives exactly one terminal event by the end of the phase-stop
sweep. -/
theorem c1_exactly_one_terminal (ns : String) (ops : List Op) (success : Bool)
    (hvalid : validFrom ns [] initState ops = true)
    (name run_id : String) (hstart : (name, run_id) ∈ startedRuns ops) :
    terminalCount (runTrace ns allOk initState (ops ++ [Op.stop success])).2 run_id = 1 := by
  have hvalid' := validFrom_append_stop ns success ops [] initState hvalid
  have hinit : TraceInv [] initState [] := by
    refine ⟨List.nodup_nil, List.nodup_nil, ?_, ?_, ?_, ?_, ?_⟩
    · intro p hp
      cases hp
    · intro name rid hr
      cases hr
    · intro n₁ n₂ r h₁ h₂
      cases h₁
    · intro p hp
      cases hp
    · intro ev hev ht
      cases hev
  have h := traceInv_run ns (ops ++ [Op.stop success]) [] [] initState [] hvalid'
    (by intro r hr; cases hr) hinit
  have hmem : (name, run_id) ∈ ([] : List (String × String)) ++
      startedRuns (ops ++ [Op.stop success]) := by
    rw [List.nil_append, startedRuns_append]
    exact List.mem_append_left _ hstart
  rcases h.started (name, run_id) hmem with ⟨ha, _⟩ | ⟨_, hc⟩
  · exfalso
    have hfin : (runTrace ns allOk initState (ops ++ [Op.stop success])).1 = initState := by
      obtain ⟨h1, _⟩ := runTrace_allOk_append ns ops [Op.stop success] initState
      rw [h1, runTrace_stop_final]
    rw [hfin] at ha
    simp [initState, dget] at ha
  · simpa using hc

/-- C1, witness: a valid one-start trace whose started run id gets
exactly one terminal event from the phase-stop sweep. -/
theorem c1_exactly_one_terminal_witness :
    validFrom "sqlmesh" [] initState
      [Op.startEval [snapE], Op.startSnap snapE "r1"] = true ∧
    ("e", "r1") ∈ startedRuns [Op.startEval [snapE], Op.startSnap snapE "r1"] ∧
    terminalCount (runTrace "sqlmesh" allOk initState
      ([Op.startEval [snapE], Op.startSnap snapE "r1"] ++ [Op.stop false])).2 "r1" = 1 :=
  ⟨rfl, by decide,
    c1_exactly_one_terminal "sqlmesh" [Op.startEval [snapE], Op.startSnap snapE "r1"]
      false rfl "e" "r1" (by decide)⟩

end SOL
